import Mathlib

/-!
Verification development for `mailing.py` (Spotter-AI-App/mailing), a batch
email-campaign sender.  Python strings are modelled as `List Char`; the parts
of the program the claims are about — the string operations of
`create_html_email` (placeholder substitution and image-reference rewriting)
and the send/persist workflow of `enviar_correos` (skip logic, per-recipient
error isolation, fatal-error paths, CSV rewrite) — are embedded as executable
Lean functions.  Network effects (SMTP connect/STARTTLS/login, `sendmail`,
`quit`) are abstracted as oracles telling which of those calls raise, since
the Python code treats any exception from them uniformly by handler position.
-/

namespace Mailing

/-- Python strings, modelled as lists of characters. -/
abbrev Str := List Char

/-- Shorthand to turn a Lean string literal into the model's string type. -/
def str (s : String) : Str := s.toList

/-- Model of Python `str.lower()` (ASCII case folding, which is all the
program's comparisons need). -/
def pyLower (s : Str) : Str := s.map Char.toLower

/-- Model of Python `str.strip()` with no arguments: remove leading and
trailing whitespace. -/
def pyStrip (s : Str) : Str :=
  ((s.dropWhile Char.isWhitespace).reverse.dropWhile Char.isWhitespace).reverse

/-- Model of Python `s.split()[0]` from `mailing.py` line 268/155: `split()`
with no arguments splits on whitespace runs and drops empty tokens, so
`split()[0]` is the first maximal whitespace-free token; it raises
`IndexError` (here: `none`) exactly when the string has no such token. -/
def firstToken : Str → Option Str
  | [] => none
  | c :: cs =>
    if Char.isWhitespace c then firstToken cs
    else some ((c :: cs).takeWhile (fun d => !Char.isWhitespace d))

/-- Fuel-driven worker for Python `str.replace(old, new)`: scan left to
right; at a match of `pat`, emit `rep` and resume after the matched text
(no rescanning of the replacement); otherwise copy one character.  Fuel is
structural so that concrete instances evaluate inside the kernel. -/
def pyReplaceFuel (pat rep : Str) : Nat → Str → Str
  | 0, s => s
  | _ + 1, [] => []
  | n + 1, c :: cs =>
    if pat.isPrefixOf (c :: cs) then
      rep ++ pyReplaceFuel pat rep n (cs.drop (pat.length - 1))
    else
      c :: pyReplaceFuel pat rep n cs

/-- Model of Python `s.replace(pat, rep)` (`mailing.py` lines 156, 161-165):
every left-to-right non-overlapping occurrence of `pat` in `s` is replaced by
`rep`. -/
def pyReplace (s pat rep : Str) : Str := pyReplaceFuel pat rep s.length s

theorem pyReplaceFuel_fuel (pat rep : Str) :
    ∀ n s, s.length ≤ n → pyReplaceFuel pat rep n s = pyReplaceFuel pat rep s.length s := by
  intro n
  induction n using Nat.strong_induction_on with
  | _ n ih =>
    intro s hs
    match n, s with
    | 0, s =>
      have : s = [] := by
        cases s with
        | nil => rfl
        | cons c cs => simp at hs
      subst this; rfl
    | n + 1, [] => rfl
    | n + 1, c :: cs =>
      have hcs : cs.length ≤ n := by simp only [List.length_cons] at hs; omega
      simp only [pyReplaceFuel, List.length_cons]
      cases hp : pat.isPrefixOf (c :: cs) with
      | true =>
        simp only [if_pos rfl]
        have hd : (cs.drop (pat.length - 1)).length ≤ cs.length := by
          have := List.length_drop (pat.length - 1) cs; omega
        rw [ih n (by omega) _ (le_trans hd hcs),
          ih cs.length (by omega) _ hd]
        simp
      | false =>
        simp only [Bool.false_eq_true, if_false]
        rw [ih n (by omega) _ hcs, ih cs.length (by omega) _ (le_refl _)]

@[simp] theorem pyReplace_nil (pat rep : Str) : pyReplace [] pat rep = [] := rfl

/-- One-step unfolding of `pyReplace` on a nonempty string. -/
theorem pyReplace_cons (pat rep : Str) (c : Char) (cs : Str) :
    pyReplace (c :: cs) pat rep =
      if pat.isPrefixOf (c :: cs) then
        rep ++ pyReplace (cs.drop (pat.length - 1)) pat rep
      else
        c :: pyReplace cs pat rep := by
  show pyReplaceFuel pat rep (cs.length + 1) (c :: cs) = _
  simp only [pyReplaceFuel]
  cases hp : pat.isPrefixOf (c :: cs) with
  | true =>
    simp only [if_pos rfl, pyReplace]
    rw [pyReplaceFuel_fuel pat rep cs.length _
      (by have := List.length_drop (pat.length - 1) cs; omega)]
  | false => simp only [Bool.false_eq_true, if_false, pyReplace]

/-! ### Model of the string work of `create_html_email` (`mailing.py` 134-183)

The Python function builds a MIME message; the claims are about the HTML
text it produces, so the model covers the two text transformations:
`html_template.replace('$name', first_name)` (line 156) and the loop that
replaces `src="images/<filename>"` by `src="cid:<cid>"` (lines 159-165),
with `cid = filename.replace('.', '_')` (line 161). -/

/-- The placeholder token `$name` of `mailing.py` line 156. -/
def nameTok : Str := str "$name"

/-- Content-ID of an image file: `filename.replace('.', '_')`
(`mailing.py` line 161). -/
def cidOf (filename : Str) : Str := pyReplace filename (str ".") (str "_")

/-- The search pattern `src="images/<filename>"` of `mailing.py` line 163. -/
def srcPat (filename : Str) : Str := str "src=\"images/" ++ filename ++ [Char.ofNat 34]

/-- The replacement text `src="cid:<cid>"` of `mailing.py` line 164. -/
def cidRef (filename : Str) : Str := str "src=\"cid:" ++ cidOf filename ++ [Char.ofNat 34]

/-- The image-reference rewriting loop of `mailing.py` lines 159-165: for
each known image filename in order, a sequential `str.replace` of its
`src="images/..."` pattern by its `src="cid:..."` reference. -/
def rewriteImages (images : List Str) (html : Str) : Str :=
  images.foldl (fun h filename => pyReplace h (srcPat filename) (cidRef filename)) html

/-- The HTML text produced by `create_html_email` (`mailing.py` 154-165):
`first_name = nombre.split()[0]`, then `$name` substitution, then image
rewriting.  `none` models the `IndexError` raised by `split()[0]` when
`nombre` has no tokens. -/
def create_html_email_body (nombre htmlTemplate : Str) (images : List Str) : Option Str :=
  (firstToken nombre).map fun firstName =>
    rewriteImages images (pyReplace htmlTemplate nameTok firstName)

/-! ### Basic lemmas about `pyReplace` -/

/-- If the pattern matches no suffix of `s`, `str.replace` is the identity. -/
theorem pyReplace_of_no_match (pat rep s : Str)
    (h : ∀ t, t <:+ s → ¬ pat <+: t) : pyReplace s pat rep = s := by
  induction s with
  | nil => rfl
  | cons c cs ih =>
    rw [pyReplace_cons]
    have hp : pat.isPrefixOf (c :: cs) = false := by
      cases hh : pat.isPrefixOf (c :: cs) with
      | true => exact absurd ( List.isPrefixOf_iff_prefix.mp hh) (h _ (List.suffix_refl _))
      | false => rfl
    rw [hp]
    simp only [Bool.false_eq_true, if_false, List.cons.injEq, true_and]
    exact ih fun t ht => h t (ht.trans (List.suffix_cons c cs))

/-- `str.replace` walks over a block `A` in which no match starts, then
continues on the rest. -/
theorem pyReplace_append_of_no_match (pat rep A B : Str)
    (h : ∀ A₁ A₂, A = A₁ ++ A₂ → A₂ ≠ [] → ¬ pat <+: (A₂ ++ B)) :
    pyReplace (A ++ B) pat rep = A ++ pyReplace B pat rep := by
  induction A with
  | nil => rfl
  | cons c A' ih =>
    rw [List.cons_append, pyReplace_cons]
    have hp : pat.isPrefixOf (c :: (A' ++ B)) = false := by
      cases hh : pat.isPrefixOf (c :: (A' ++ B)) with
      | true =>
        exact absurd ( List.isPrefixOf_iff_prefix.mp hh)
          (by simpa using h [] (c :: A') rfl (by simp))
      | false => rfl
    rw [hp]
    simp only [Bool.false_eq_true, if_false, List.cons_append, List.cons.injEq, true_and]
    exact ih fun A₁ A₂ hA hne => h (c :: A₁) A₂ (by simp [hA]) hne

/-- `str.replace` at a match: the match is consumed, the replacement
emitted, scanning resumes after the matched text. -/
theorem pyReplace_head_match (pat rep Y : Str) (hne : pat ≠ []) :
    pyReplace (pat ++ Y) pat rep = rep ++ pyReplace Y pat rep := by
  match pat, hne with
  | p :: ps, _ =>
    rw [List.cons_append, pyReplace_cons]
    have hp : (p :: ps).isPrefixOf (p :: (ps ++ Y)) = true := by
      rw [ List.isPrefixOf_iff_prefix]
      exact ⟨Y, by simp⟩
    rw [hp]
    simp only [if_pos rfl, List.length_cons, Nat.add_sub_cancel, List.append_cancel_left_eq]
    rw [List.drop_left ps Y]
    simp

/-- Replacing a single character by a single character is a character map
(used for `filename.replace('.', '_')`). -/
theorem pyReplace_single (a b : Char) (s : Str) :
    pyReplace s [a] [b] = s.map fun c => if c = a then b else c := by
  induction s with
  | nil => rfl
  | cons c cs ih =>
    rw [pyReplace_cons]
    cases hh : [a].isPrefixOf (c :: cs) with
    | true =>
      have : a = c := by
        have := List.isPrefixOf_iff_prefix.mp hh
        rcases this with ⟨t, ht⟩
        have h2 := congrArg (fun l => l.head?) ht
        simp at h2
        exact h2
      subst this
      simp [ih, List.map_cons]
    | false =>
      have : ¬ a = c := by
        intro hac
        subst hac
        rw [show [a].isPrefixOf (a :: cs) = true from
          List.isPrefixOf_iff_prefix.mpr ⟨cs, by simp⟩] at hh
        exact Bool.true_eq_false.mp hh
      simp only [Bool.false_eq_true, if_false, List.map_cons, List.cons.injEq]
      exact ⟨by simp [Ne.symm this], ih⟩

/-! ### Model of the send/persist workflow of `enviar_correos` (`mailing.py` 186-331)

A contact is the dictionary `csv.DictReader` produces for one row: an
association list from column name to cell text.  The model starts after the
CSV has been loaded into `contactos` (line 240) and covers: the
empty-file/pending-count early returns (241-254), the connection setup
(257-263), the per-contact loop (267-311), `server.quit()` (313) and the
rewrite of the CSV file (317-321), with the exception handlers of lines
324-331.  Three oracles stand for the network: whether connection setup
(connect + STARTTLS + login) raises and with which handled class, whether
the `try` body of lines 299-308 (message build + `sendmail`) raises for the
i-th contact, and whether `server.quit()` raises.  Pure template/subject
selection (lines 272-296) affects only the message text, which no claim
about this function concerns, so it is not tracked here. -/

/-- One CSV row as loaded by `csv.DictReader`: column name ↦ cell text. -/
abbrev Contact := List (Str × Str)

/-- Python `dict.get(key, default)`. -/
def pyGet : Contact → Str → Str → Str
  | [], _, d => d
  | (k, v) :: rest, key, d => if k = key then v else pyGet rest key d

/-- Python `dict[key] = v`: replace the value of an existing key in place,
or add the key. -/
def setField : Contact → Str → Str → Contact
  | [], key, v => [(key, v)]
  | (k, w) :: rest, key, v =>
    if k = key then (key, v) :: rest else (k, w) :: setField rest key v

/-- The fixed column order of the rewrite, `mailing.py` line 318. -/
def fieldnames : List Str :=
  [str "nombre", str "email", str "device", str "enviado", str "language"]

/-- `contacto.get('nombre','').split()[0]` of line 268: `none` is the
`IndexError` raised when the name is empty or whitespace. -/
def rowFirstTok (c : Contact) : Option Str := firstToken (pyGet c (str "nombre") (str ""))

/-- The skip test of line 278, `not nombre or not email or device == 'android'`,
with `nombre = ...split()[0].strip()` (line 268, token `t`),
`email = get('email','').lower().strip()` (line 269) and
`device = get('device','no').lower().strip()` (line 271). -/
def rowSkips (c : Contact) (t : Str) : Bool :=
  (pyStrip t).isEmpty || (pyStrip (pyLower (pyGet c (str "email") (str "")))).isEmpty ||
    (pyStrip (pyLower (pyGet c (str "device") (str "no"))) = str "android")

/-- The already-sent test of line 282 on
`enviado = get('enviado','no').lower().strip()` (line 270). -/
def rowAlready (c : Contact) : Bool :=
  pyStrip (pyLower (pyGet c (str "enviado") (str "no"))) = str "si"

/-- A row reaches the send `try` of line 298 iff its name yields a first
token and neither the skip test (line 278) nor the already-sent test
(line 282) fires. -/
def rowAttempts (c : Contact) : Bool :=
  match rowFirstTok c with
  | none => false
  | some t => !rowSkips c t && !rowAlready c

/-- Outcome of the `for contacto in contactos` loop (lines 267-311):
the in-memory contact list (mutated in place on successful sends, line 306),
the absolute indices that reached the send `try`, the indices whose send
succeeded, and whether line 268 raised `IndexError` (which escapes the loop
to the generic handler of line 330). -/
structure LoopResult where
  contacts : List Contact
  attempted : List Nat
  sent : List Nat
  indexError : Bool
  deriving Repr, DecidableEq

/-- The send loop, starting at absolute index `i`.  `sendOk j` tells whether
the `try` body of lines 299-308 (build + `sendmail`) completes for the j-th
contact; any exception there is caught at line 310 and the loop continues. -/
def processContacts (sendOk : Nat → Bool) : Nat → List Contact → LoopResult
  | _, [] => ⟨[], [], [], false⟩
  | i, c :: cs =>
    match rowFirstTok c with
    | none => ⟨c :: cs, [], [], true⟩
    | some t =>
      if rowSkips c t then
        let r := processContacts sendOk (i + 1) cs
        ⟨c :: r.contacts, r.attempted, r.sent, r.indexError⟩
      else if rowAlready c then
        let r := processContacts sendOk (i + 1) cs
        ⟨c :: r.contacts, r.attempted, r.sent, r.indexError⟩
      else
        let r := processContacts sendOk (i + 1) cs
        if sendOk i then
          ⟨setField c (str "enviado") (str "si") :: r.contacts,
            i :: r.attempted, i :: r.sent, r.indexError⟩
        else
          ⟨c :: r.contacts, i :: r.attempted, r.sent, r.indexError⟩

/-- State of the contact-list file after the run.  `untouched` means the
file was never opened for writing, so its bytes are those of the input. -/
inductive FileOutcome where
  /-- The rewrite of lines 317-321 never ran: input bytes intact. -/
  | untouched : FileOutcome
  /-- Lines 317-321 completed: header row plus one row per contact. -/
  | rewritten : List (List Str) → FileOutcome
  /-- `csv.DictWriter` raised after the header (and any valid earlier rows)
  had been written: the file holds only this prefix. -/
  | partiallyWritten : List (List Str) → FileOutcome
  deriving Repr, DecidableEq

/-- A row `csv.DictWriter.writerow` accepts: no key outside `fieldnames`
(`extrasaction='raise'`, the default). -/
def validRow (c : Contact) : Bool := c.all fun kv => kv.1 ∈ fieldnames

/-- The cells `DictWriter` emits for one row: one per field name in order,
missing keys filled with the empty-rendered `restval`. -/
def serRow (c : Contact) : List Str := fieldnames.map fun k => pyGet c k (str "")

/-- `writer.writerows(contactos)` (line 321): rows are written one by one
until the first row with an unexpected key raises `ValueError`; the `Bool`
tells whether all rows were written. -/
def writeRows : List Contact → List (List Str) × Bool
  | [] => ([], true)
  | c :: cs =>
    if validRow c then
      let (rs, ok) := writeRows cs
      (serRow c :: rs, ok)
    else
      ([], false)

/-- The CSV rewrite of lines 317-321: the file is opened for writing
(truncated), the header written, then the rows; a `ValueError` from
`DictWriter` leaves the prefix written so far in the file. -/
def writeCsv (contacts : List Contact) : FileOutcome :=
  let (rs, ok) := writeRows contacts
  if ok then .rewritten (fieldnames :: rs) else .partiallyWritten (fieldnames :: rs)

/-- The distinct handled classes of a connection-setup failure
(lines 324-331). -/
inductive ConnError where
  | auth | dns | refused | other
  deriving Repr, DecidableEq

/-- How the run ended. -/
inductive RunEnd where
  /-- An early `return` before connecting: empty contact list (line 243) or
  no pending emails (line 254). -/
  | earlyReturn : RunEnd
  /-- Connection setup (lines 258-262) raised; handled at lines 324-331. -/
  | connFailed : ConnError → RunEnd
  /-- An exception after setup escaped to a handler: `IndexError` from
  line 268, `server.quit()` raising, or `csv.DictWriter` raising. -/
  | genericError : RunEnd
  /-- The run printed `CSV actualizado` (line 322). -/
  | completed : RunEnd
  deriving Repr, DecidableEq

/-- Everything observable about one run. -/
structure RunResult where
  contacts : List Contact
  attempted : List Nat
  sent : List Nat
  file : FileOutcome
  ended : RunEnd
  deriving Repr, DecidableEq

/-- `pendientes` of line 249:
`sum(1 for c in contactos if c.get('enviado','no').lower().strip() != 'si')`. -/
def pendientesCount (contactos : List Contact) : Nat :=
  contactos.countP fun c => !(pyStrip (pyLower (pyGet c (str "enviado") (str "no"))) = str "si")

/-- Model of `enviar_correos` from the point where `contactos` has been
loaded (line 240).  `connect` is `some e` when connection setup raises the
handled class `e`; `sendOk` drives the per-contact `try`; `quitOk` tells
whether `server.quit()` (line 313) returns normally — after a mid-batch
connection loss it raises `SMTPServerDisconnected`, which only the generic
handler of line 330 catches, skipping the CSV rewrite. -/
def enviar_correos (connect : Option ConnError) (sendOk : Nat → Bool) (quitOk : Bool)
    (contactos : List Contact) : RunResult :=
  if contactos.isEmpty then
    ⟨contactos, [], [], .untouched, .earlyReturn⟩
  else if pendientesCount contactos = 0 then
    ⟨contactos, [], [], .untouched, .earlyReturn⟩
  else
    match connect with
    | some e => ⟨contactos, [], [], .untouched, .connFailed e⟩
    | none =>
      if (processContacts sendOk 0 contactos).indexError then
        ⟨(processContacts sendOk 0 contactos).contacts,
          (processContacts sendOk 0 contactos).attempted,
          (processContacts sendOk 0 contactos).sent, .untouched, .genericError⟩
      else if !quitOk then
        ⟨(processContacts sendOk 0 contactos).contacts,
          (processContacts sendOk 0 contactos).attempted,
          (processContacts sendOk 0 contactos).sent, .untouched, .genericError⟩
      else if (writeRows (processContacts sendOk 0 contactos).contacts).2 then
        ⟨(processContacts sendOk 0 contactos).contacts,
          (processContacts sendOk 0 contactos).attempted,
          (processContacts sendOk 0 contactos).sent,
          .rewritten (fieldnames :: (writeRows (processContacts sendOk 0 contactos).contacts).1),
          .completed⟩
      else
        ⟨(processContacts sendOk 0 contactos).contacts,
          (processContacts sendOk 0 contactos).attempted,
          (processContacts sendOk 0 contactos).sent,
          .partiallyWritten (fieldnames :: (writeRows (processContacts sendOk 0 contactos).contacts).1),
          .genericError⟩

/-! ### Characterization of the send loop -/

theorem pyGet_setField (c : Contact) (k v d : Str) : pyGet (setField c k v) k d = v := by
  induction c with
  | nil => simp [setField, pyGet]
  | cons kv rest ih =>
    by_cases hk : kv.1 = k
    · obtain ⟨k1, v1⟩ := kv
      simp only at hk
      simp [setField, hk, pyGet]
    · obtain ⟨k1, v1⟩ := kv
      simp only at hk
      simp [setField, hk, pyGet, ih]

theorem processContacts_cons_err (f : Nat → Bool) (i : Nat) (c : Contact) (cs : List Contact)
    (h : rowFirstTok c = none) :
    processContacts f i (c :: cs) = ⟨c :: cs, [], [], true⟩ := by
  simp [processContacts, h]

theorem processContacts_cons_skip (f : Nat → Bool) (i : Nat) (c : Contact) (cs : List Contact)
    (t : Str) (h : rowFirstTok c = some t) (hs : rowSkips c t = true) :
    processContacts f i (c :: cs) =
      ⟨c :: (processContacts f (i + 1) cs).contacts, (processContacts f (i + 1) cs).attempted,
        (processContacts f (i + 1) cs).sent, (processContacts f (i + 1) cs).indexError⟩ := by
  simp [processContacts, h, hs]

theorem processContacts_cons_already (f : Nat → Bool) (i : Nat) (c : Contact) (cs : List Contact)
    (t : Str) (h : rowFirstTok c = some t) (hs : rowSkips c t = false)
    (ha : rowAlready c = true) :
    processContacts f i (c :: cs) =
      ⟨c :: (processContacts f (i + 1) cs).contacts, (processContacts f (i + 1) cs).attempted,
        (processContacts f (i + 1) cs).sent, (processContacts f (i + 1) cs).indexError⟩ := by
  simp [processContacts, h, hs, ha]

theorem processContacts_cons_sent (f : Nat → Bool) (i : Nat) (c : Contact) (cs : List Contact)
    (t : Str) (h : rowFirstTok c = some t) (hs : rowSkips c t = false)
    (ha : rowAlready c = false) (hf : f i = true) :
    processContacts f i (c :: cs) =
      ⟨setField c (str "enviado") (str "si") :: (processContacts f (i + 1) cs).contacts,
        i :: (processContacts f (i + 1) cs).attempted, i :: (processContacts f (i + 1) cs).sent,
        (processContacts f (i + 1) cs).indexError⟩ := by
  simp [processContacts, h, hs, ha, hf]

theorem processContacts_cons_fail (f : Nat → Bool) (i : Nat) (c : Contact) (cs : List Contact)
    (t : Str) (h : rowFirstTok c = some t) (hs : rowSkips c t = false)
    (ha : rowAlready c = false) (hf : f i = false) :
    processContacts f i (c :: cs) =
      ⟨c :: (processContacts f (i + 1) cs).contacts, i :: (processContacts f (i + 1) cs).attempted,
        (processContacts f (i + 1) cs).sent, (processContacts f (i + 1) cs).indexError⟩ := by
  simp [processContacts, h, hs, ha, hf]

/-- Convenience recursor: prove a goal about `processContacts f i (c :: cs)`
by the five shapes it can take. -/
theorem processContacts_cases (f : Nat → Bool) (i : Nat) (c : Contact) (cs : List Contact)
    (P : LoopResult → Prop)
    (herr : rowFirstTok c = none → P ⟨c :: cs, [], [], true⟩)
    (hkeep : (rowAttempts c = false) → (rowFirstTok c ≠ none) →
      P ⟨c :: (processContacts f (i + 1) cs).contacts, (processContacts f (i + 1) cs).attempted,
        (processContacts f (i + 1) cs).sent, (processContacts f (i + 1) cs).indexError⟩)
    (hsent : rowAttempts c = true → f i = true →
      P ⟨setField c (str "enviado") (str "si") :: (processContacts f (i + 1) cs).contacts,
        i :: (processContacts f (i + 1) cs).attempted, i :: (processContacts f (i + 1) cs).sent,
        (processContacts f (i + 1) cs).indexError⟩)
    (hfail : rowAttempts c = true → f i = false →
      P ⟨c :: (processContacts f (i + 1) cs).contacts, i :: (processContacts f (i + 1) cs).attempted,
        (processContacts f (i + 1) cs).sent, (processContacts f (i + 1) cs).indexError⟩) :
    P (processContacts f i (c :: cs)) := by
  cases h : rowFirstTok c with
  | none => rw [processContacts_cons_err f i c cs h]; exact herr h
  | some t =>
    cases hs : rowSkips c t with
    | true =>
      rw [processContacts_cons_skip f i c cs t h hs]
      exact hkeep (by simp [rowAttempts, h, hs]) (by simp [h])
    | false =>
      cases ha : rowAlready c with
      | true =>
        rw [processContacts_cons_already f i c cs t h hs ha]
        exact hkeep (by simp [rowAttempts, h, hs, ha]) (by simp [h])
      | false =>
        cases hf : f i with
        | true =>
          rw [processContacts_cons_sent f i c cs t h hs ha hf]
          exact hsent (by simp [rowAttempts, h, hs, ha]) hf
        | false =>
          rw [processContacts_cons_fail f i c cs t h hs ha hf]
          exact hfail (by simp [rowAttempts, h, hs, ha]) hf

theorem processContacts_length (f : Nat → Bool) (i : Nat) (cs : List Contact) :
    (processContacts f i cs).contacts.length = cs.length := by
  induction cs generalizing i with
  | nil => rfl
  | cons c cs ih =>
    refine processContacts_cases f i c cs (fun r => r.contacts.length = (c :: cs).length)
      (fun _ => rfl) (fun _ _ => ?_) (fun _ _ => ?_) (fun _ _ => ?_) <;>
      simp [ih (i + 1)]

theorem mem_attempted_char (f : Nat → Bool) (i : Nat) (cs : List Contact) (n : Nat)
    (hn : n ∈ (processContacts f i cs).attempted) :
    ∃ j, ∃ hj : j < cs.length, n = i + j ∧ rowAttempts (cs.get ⟨j, hj⟩) = true := by
  induction cs generalizing i with
  | nil => simp [processContacts] at hn
  | cons c cs ih =>
    have key : n ∈ (processContacts f (i + 1) cs).attempted →
        ∃ j, ∃ hj : j < (c :: cs).length, n = i + j ∧
          rowAttempts ((c :: cs).get ⟨j, hj⟩) = true := by
      intro hm
      obtain ⟨j, hj, h1, h2⟩ := ih (i + 1) hm
      exact ⟨j + 1, by simpa using hj, by omega, by simpa using h2⟩
    revert hn
    refine processContacts_cases f i c cs
      (fun r => n ∈ r.attempted →
        ∃ j, ∃ hj : j < (c :: cs).length, n = i + j ∧
          rowAttempts ((c :: cs).get ⟨j, hj⟩) = true) ?_ ?_ ?_ ?_
    · intro _ hn; simp at hn
    · intro _ _ hn; exact key hn
    · intro hat _ hn
      simp only [List.mem_cons] at hn
      rcases hn with rfl | hn
      · exact ⟨0, by simp, by omega, by simpa using hat⟩
      · exact key hn
    · intro hat _ hn
      simp only [List.mem_cons] at hn
      rcases hn with rfl | hn
      · exact ⟨0, by simp, by omega, by simpa using hat⟩
      · exact key hn

theorem sent_subset_attempted (f : Nat → Bool) (i : Nat) (cs : List Contact) (n : Nat)
    (hn : n ∈ (processContacts f i cs).sent) : n ∈ (processContacts f i cs).attempted := by
  induction cs generalizing i with
  | nil => simp [processContacts] at hn
  | cons c cs ih =>
    revert hn
    refine processContacts_cases f i c cs
      (fun r => n ∈ r.sent → n ∈ r.attempted) ?_ ?_ ?_ ?_
    · intro _ hn; simp at hn
    · intro _ _ hn; exact ih (i + 1) hn
    · intro _ _ hn
      simp only [List.mem_cons] at hn ⊢
      rcases hn with rfl | hn
      · exact Or.inl rfl
      · exact Or.inr (ih (i + 1) hn)
    · intro _ _ hn
      simp only [List.mem_cons]
      exact Or.inr (ih (i + 1) hn)

theorem attempted_lower_bound (f : Nat → Bool) (i : Nat) (cs : List Contact) (n : Nat)
    (hn : n ∈ (processContacts f i cs).attempted) : i ≤ n := by
  obtain ⟨j, hj, h1, _⟩ := mem_attempted_char f i cs n hn
  omega

theorem contacts_get_of_not_sent (f : Nat → Bool) (i j : Nat) (cs : List Contact)
    (hn : (i + j) ∉ (processContacts f i cs).sent) :
    (processContacts f i cs).contacts.get? j = cs.get? j := by
  induction cs generalizing i j with
  | nil => rfl
  | cons c cs ih =>
    have key : ∀ j', (i + (j' + 1)) ∉ (processContacts f (i + 1) cs).sent →
        (processContacts f (i + 1) cs).contacts.get? j' = cs.get? j' := by
      intro j' hm
      exact ih (i + 1) j' (by simpa [Nat.add_right_comm i 1 j'] using hm)
    revert hn
    refine processContacts_cases f i c cs
      (fun r => (i + j) ∉ r.sent → r.contacts.get? j = (c :: cs).get? j) ?_ ?_ ?_ ?_
    · intro _ _; rfl
    · intro _ _ hn
      cases j with
      | zero => rfl
      | succ j => simpa using key j hn
    · intro _ _ hn
      cases j with
      | zero => exact absurd (by simp) hn
      | succ j =>
        simp only [List.mem_cons] at hn
        push_neg at hn
        simpa using key j hn.2
    · intro _ _ hn
      cases j with
      | zero => rfl
      | succ j => simpa using key j hn

theorem contacts_get_of_sent (f : Nat → Bool) (i j : Nat) (cs : List Contact)
    (hn : (i + j) ∈ (processContacts f i cs).sent) :
    (processContacts f i cs).contacts.get? j =
      (cs.get? j).map fun c => setField c (str "enviado") (str "si") := by
  induction cs generalizing i j with
  | nil => simp [processContacts] at hn
  | cons c cs ih =>
    have key : ∀ j', (i + (j' + 1)) ∈ (processContacts f (i + 1) cs).sent →
        (processContacts f (i + 1) cs).contacts.get? j' =
          (cs.get? j').map fun c => setField c (str "enviado") (str "si") := by
      intro j' hm
      exact ih (i + 1) j' (by simpa [Nat.add_right_comm i 1 j'] using hm)
    have hlow : ∀ m, m ∈ (processContacts f (i + 1) cs).sent → i + 1 ≤ m :=
      fun m hm => attempted_lower_bound f (i + 1) cs m (sent_subset_attempted f (i + 1) cs m hm)
    revert hn
    refine processContacts_cases f i c cs
      (fun r => (i + j) ∈ r.sent →
        r.contacts.get? j = ((c :: cs).get? j).map
          fun c => setField c (str "enviado") (str "si")) ?_ ?_ ?_ ?_
    · intro _ hn; simp at hn
    · intro _ _ hn
      cases j with
      | zero => exact absurd (hlow _ hn) (by omega)
      | succ j => simpa using key j hn
    · intro _ _ hn
      cases j with
      | zero => simp
      | succ j =>
        simp only [List.mem_cons] at hn
        rcases hn with hn | hn
        · omega
        · simpa using key j hn
    · intro _ _ hn
      cases j with
      | zero => exact absurd (hlow _ hn) (by omega)
      | succ j => simpa using key j hn

theorem indexError_of_err (f : Nat → Bool) (i k : Nat) (cs : List Contact) (c : Contact)
    (hk : cs.get? k = some c) (herr : rowFirstTok c = none) :
    (processContacts f i cs).indexError = true ∧
      ∀ n ∈ (processContacts f i cs).attempted, n < i + k := by
  induction cs generalizing i k with
  | nil => simp at hk
  | cons c0 cs ih =>
    refine processContacts_cases f i c0 cs
      (fun r => r.indexError = true ∧ ∀ n ∈ r.attempted, n < i + k) ?_ ?_ ?_ ?_
    · intro _; exact ⟨rfl, by simp⟩
    · intro _ hno
      cases k with
      | zero =>
        simp only [List.get?_cons_zero, Option.some.injEq] at hk
        subst hk
        exact absurd herr hno
      | succ k =>
        simp only [List.get?_cons_succ] at hk
        obtain ⟨h1, h2⟩ := ih (i + 1) k hk
        exact ⟨h1, fun n hn => by have := h2 n hn; omega⟩
    · intro hat _
      cases k with
      | zero =>
        simp only [List.get?_cons_zero, Option.some.injEq] at hk
        subst hk
        simp [rowAttempts, herr] at hat
      | succ k =>
        simp only [List.get?_cons_succ] at hk
        obtain ⟨h1, h2⟩ := ih (i + 1) k hk
        refine ⟨h1, fun n hn => ?_⟩
        simp only [List.mem_cons] at hn
        rcases hn with rfl | hn
        · omega
        · have := h2 n hn; omega
    · intro hat _
      cases k with
      | zero =>
        simp only [List.get?_cons_zero, Option.some.injEq] at hk
        subst hk
        simp [rowAttempts, herr] at hat
      | succ k =>
        simp only [List.get?_cons_succ] at hk
        obtain ⟨h1, h2⟩ := ih (i + 1) k hk
        refine ⟨h1, fun n hn => ?_⟩
        simp only [List.mem_cons] at hn
        rcases hn with rfl | hn
        · omega
        · have := h2 n hn; omega

theorem indexError_false (f : Nat → Bool) (i : Nat) (cs : List Contact)
    (h : ∀ c ∈ cs, rowFirstTok c ≠ none) :
    (processContacts f i cs).indexError = false := by
  induction cs generalizing i with
  | nil => rfl
  | cons c0 cs ih =>
    refine processContacts_cases f i c0 cs (fun r => r.indexError = false) ?_ ?_ ?_ ?_
    · intro herr; exact absurd herr (h c0 (by simp))
    · intro _ _; exact ih (i + 1) fun c hc => h c (by simp [hc])
    · intro _ _; exact ih (i + 1) fun c hc => h c (by simp [hc])
    · intro _ _; exact ih (i + 1) fun c hc => h c (by simp [hc])

theorem attempted_of_rowAttempts (f : Nat → Bool) (i : Nat) (cs : List Contact)
    (hne : (processContacts f i cs).indexError = false) (j : Nat) (c : Contact)
    (hj : cs.get? j = some c) (hat : rowAttempts c = true) :
    (i + j) ∈ (processContacts f i cs).attempted := by
  induction cs generalizing i j with
  | nil => simp at hj
  | cons c0 cs ih =>
    revert hne
    refine processContacts_cases f i c0 cs
      (fun r => r.indexError = false → (i + j) ∈ r.attempted) ?_ ?_ ?_ ?_
    · intro _ hne; exact absurd hne (by simp)
    · intro hat0 _ hne
      cases j with
      | zero =>
        simp only [List.get?_cons_zero, Option.some.injEq] at hj
        subst hj
        rw [hat] at hat0
        exact absurd hat0 (by simp)
      | succ j =>
        simp only [List.get?_cons_succ] at hj
        have := ih (i + 1) hne j hj
        simpa [Nat.add_right_comm i 1 j] using this
    · intro _ _ hne
      cases j with
      | zero => simp
      | succ j =>
        simp only [List.get?_cons_succ] at hj
        have := ih (i + 1) hne j hj
        simp only [List.mem_cons]
        right
        simpa [Nat.add_right_comm i 1 j] using this
    · intro _ _ hne
      cases j with
      | zero => simp
      | succ j =>
        simp only [List.get?_cons_succ] at hj
        have := ih (i + 1) hne j hj
        simp only [List.mem_cons]
        right
        simpa [Nat.add_right_comm i 1 j] using this

theorem writeRows_ok (cs : List Contact) (h : (writeRows cs).2 = true) :
    (writeRows cs).1 = cs.map serRow := by
  induction cs with
  | nil => rfl
  | cons c cs ih =>
    by_cases hv : validRow c
    · simp only [writeRows, hv, if_true] at h ⊢
      rw [List.map_cons, ← ih h]
    · simp [writeRows, hv] at h

/-- Inversion of a completed run: the connection was made, no `IndexError`
fired, `quit` succeeded, all rows were accepted by `DictWriter`, and the
persisted file is the header followed by one serialized row per in-memory
contact. -/
theorem run_completed_char (co : Option ConnError) (f : Nat → Bool) (q : Bool)
    (cs : List Contact) (h : (enviar_correos co f q cs).ended = RunEnd.completed) :
    enviar_correos co f q cs =
      ⟨(processContacts f 0 cs).contacts, (processContacts f 0 cs).attempted,
        (processContacts f 0 cs).sent,
        .rewritten (fieldnames :: (processContacts f 0 cs).contacts.map serRow),
        .completed⟩ := by
  cases co with
  | some e =>
    exfalso
    unfold enviar_correos at h
    by_cases he : cs.isEmpty = true
    · rw [if_pos he] at h; simp at h
    · rw [if_neg he] at h
      by_cases hp : pendientesCount cs = 0
      · rw [if_pos hp] at h; simp at h
      · rw [if_neg hp] at h; simp at h
  | none =>
    by_cases he : cs.isEmpty = true
    · exfalso; unfold enviar_correos at h; rw [if_pos he] at h; simp at h
    by_cases hp : pendientesCount cs = 0
    · exfalso; unfold enviar_correos at h; rw [if_neg he, if_pos hp] at h; simp at h
    unfold enviar_correos at h ⊢
    rw [if_neg he, if_neg hp] at h ⊢
    simp only at h ⊢
    by_cases hie : (processContacts f 0 cs).indexError = true
    · rw [if_pos hie] at h; simp at h
    rw [if_neg hie] at h ⊢
    by_cases hq : (!q) = true
    · rw [if_pos hq] at h; simp at h
    rw [if_neg hq] at h ⊢
    by_cases hok : (writeRows (processContacts f 0 cs).contacts).2 = true
    · rw [if_pos hok] at h ⊢
      have := writeRows_ok (processContacts f 0 cs).contacts hok
      rw [this]
    · rw [if_neg hok] at h; simp at h

/-- Whatever branch a run takes, its attempted indices come from the loop. -/
theorem run_attempted_sub (co : Option ConnError) (f : Nat → Bool) (q : Bool)
    (cs : List Contact) (n : Nat) (hn : n ∈ (enviar_correos co f q cs).attempted) :
    n ∈ (processContacts f 0 cs).attempted := by
  unfold enviar_correos at hn
  by_cases he : cs.isEmpty = true
  · rw [if_pos he] at hn; simp at hn
  rw [if_neg he] at hn
  by_cases hp : pendientesCount cs = 0
  · rw [if_pos hp] at hn; simp at hn
  rw [if_neg hp] at hn
  cases co with
  | some e => simp at hn
  | none =>
    simp only at hn
    by_cases hie : (processContacts f 0 cs).indexError = true
    · rw [if_pos hie] at hn; exact hn
    rw [if_neg hie] at hn
    by_cases hq : (!q) = true
    · rw [if_pos hq] at hn; exact hn
    rw [if_neg hq] at hn
    by_cases hok : (writeRows (processContacts f 0 cs).contacts).2 = true
    · rw [if_pos hok] at hn; exact hn
    · rw [if_neg hok] at hn; exact hn

/-- Same for sent indices. -/
theorem run_sent_sub (co : Option ConnError) (f : Nat → Bool) (q : Bool)
    (cs : List Contact) (n : Nat) (hn : n ∈ (enviar_correos co f q cs).sent) :
    n ∈ (processContacts f 0 cs).sent := by
  unfold enviar_correos at hn
  by_cases he : cs.isEmpty = true
  · rw [if_pos he] at hn; simp at hn
  rw [if_neg he] at hn
  by_cases hp : pendientesCount cs = 0
  · rw [if_pos hp] at hn; simp at hn
  rw [if_neg hp] at hn
  cases co with
  | some e => simp at hn
  | none =>
    simp only at hn
    by_cases hie : (processContacts f 0 cs).indexError = true
    · rw [if_pos hie] at hn; exact hn
    rw [if_neg hie] at hn
    by_cases hq : (!q) = true
    · rw [if_pos hq] at hn; exact hn
    rw [if_neg hq] at hn
    by_cases hok : (writeRows (processContacts f 0 cs).contacts).2 = true
    · rw [if_pos hok] at hn; exact hn
    · rw [if_neg hok] at hn; exact hn

/-- The contact-list file is rewritten in full only by a completed run. -/
theorem run_file_rewritten (co : Option ConnError) (f : Nat → Bool) (q : Bool)
    (cs : List Contact) (rows : List (List Str))
    (h : (enviar_correos co f q cs).file = FileOutcome.rewritten rows) :
    (enviar_correos co f q cs).ended = RunEnd.completed ∧
      rows = fieldnames :: (processContacts f 0 cs).contacts.map serRow ∧
      (enviar_correos co f q cs).contacts = (processContacts f 0 cs).contacts ∧
      (enviar_correos co f q cs).sent = (processContacts f 0 cs).sent := by
  have hend : (enviar_correos co f q cs).ended = RunEnd.completed := by
    unfold enviar_correos at h ⊢
    by_cases he : cs.isEmpty = true
    · rw [if_pos he] at h; simp at h
    rw [if_neg he] at h ⊢
    by_cases hp : pendientesCount cs = 0
    · rw [if_pos hp] at h; simp at h
    rw [if_neg hp] at h ⊢
    cases co with
    | some e => simp at h
    | none =>
      simp only at h ⊢
      by_cases hie : (processContacts f 0 cs).indexError = true
      · rw [if_pos hie] at h; simp at h
      rw [if_neg hie] at h ⊢
      by_cases hq : (!q) = true
      · rw [if_pos hq] at h; simp at h
      rw [if_neg hq] at h ⊢
      by_cases hok : (writeRows (processContacts f 0 cs).contacts).2 = true
      · rw [if_pos hok]
      · rw [if_neg hok] at h; simp at h
  have hch := run_completed_char co f q cs hend
  rw [hch] at h ⊢
  simp only [FileOutcome.rewritten.injEq] at h
  exact ⟨rfl, h.symm, rfl, rfl⟩

/-- A `dropWhile` over characters none of which pass the test is the
identity. -/
theorem dropWhile_id_of_none (l : Str) (h : ∀ x ∈ l, Char.isWhitespace x = false) :
    l.dropWhile Char.isWhitespace = l := by
  cases l with
  | nil => rfl
  | cons c cs =>
    rw [List.dropWhile_cons, h c (by simp)]
    simp

/-- The first token of a split never strips to the empty string: tokens are
nonempty and whitespace-free, so the `not nombre` test of line 278 can
never fire once line 268 has produced a token. -/
theorem firstToken_strip_nonempty (s t : Str) (h : firstToken s = some t) :
    (pyStrip t).isEmpty = false := by
  induction s with
  | nil => simp [firstToken] at h
  | cons c cs ih =>
    by_cases hw : Char.isWhitespace c
    · rw [firstToken, if_pos hw] at h; exact ih h
    · rw [firstToken, if_neg hw] at h
      simp only [Option.some.injEq] at h
      have ht : t = c :: cs.takeWhile (fun d => !Char.isWhitespace d) := by
        rw [← h, List.takeWhile_cons]
        simp [hw]
      have hmem : ∀ x ∈ t, Char.isWhitespace x = false := by
        intro x hx
        rw [← h] at hx
        have := List.mem_takeWhile_imp hx
        simpa using this
      have h1 : t.dropWhile Char.isWhitespace = t := dropWhile_id_of_none t hmem
      have h2 : t.reverse.dropWhile Char.isWhitespace = t.reverse :=
        dropWhile_id_of_none t.reverse (by intro x hx; exact hmem x (List.mem_reverse.mp hx))
      rw [pyStrip, h1, h2, List.reverse_reverse, ht]
      simp

/-- A row whose `enviado` normalizes to `si` never reaches the send `try`. -/
theorem rowAttempts_false_of_already (c : Contact)
    (h : pyStrip (pyLower (pyGet c (str "enviado") (str "no"))) = str "si") :
    rowAttempts c = false := by
  unfold rowAttempts
  cases hrt : rowFirstTok c with
  | none => rfl
  | some t => simp [rowAlready, h]

/-- A row whose `device` normalizes to `android` never reaches the send
`try`. -/
theorem rowAttempts_false_of_android (c : Contact)
    (h : pyStrip (pyLower (pyGet c (str "device") (str "no"))) = str "android") :
    rowAttempts c = false := by
  unfold rowAttempts
  cases hrt : rowFirstTok c with
  | none => rfl
  | some t => simp [rowSkips, h]

/-- If row `j` never reaches the send `try` in any run, it is never in
`attempted` and never mutated. -/
theorem run_not_attempted (co : Option ConnError) (f : Nat → Bool) (q : Bool)
    (cs : List Contact) (j : Nat) (c : Contact) (hc : cs.get? j = some c)
    (hat : rowAttempts c = false) :
    j ∉ (enviar_correos co f q cs).attempted ∧ (processContacts f 0 cs).contacts.get? j = cs.get? j := by
  have hnot : j ∉ (processContacts f 0 cs).attempted := by
    intro hmem
    obtain ⟨j2, hj2, heq, hat2⟩ := mem_attempted_char f 0 cs j hmem
    have hj2j : j2 = j := by omega
    subst hj2j
    have : cs.get ⟨j2, hj2⟩ = c := by
      have := List.get?_eq_get hj2
      rw [this] at hc
      exact Option.some.inj hc
    rw [this, hat] at hat2
    exact Bool.false_ne_true hat2
  refine ⟨fun hmem => hnot (run_attempted_sub co f q cs j hmem), ?_⟩
  refine contacts_get_of_not_sent f 0 j cs ?_
  intro hmem
  exact hnot (by simpa using sent_subset_attempted f 0 cs (0 + j) hmem)

/-- Claim C4: a contact whose `enviado`, lowercased and trimmed, is `si`
reaches no send attempt, and in a run that rewrote the contact-list file
its row (row j of the contacts, row j+1 of the file after the header) is
exactly the serialization of the original, unchanged record. -/
theorem claim_C4 (co : Option ConnError) (f : Nat → Bool) (q : Bool)
    (cs : List Contact) (j : Nat) (c : Contact) (hc : cs.get? j = some c)
    (hsi : pyStrip (pyLower (pyGet c (str "enviado") (str "no"))) = str "si") :
    j ∉ (enviar_correos co f q cs).attempted ∧
    ∀ rows, (enviar_correos co f q cs).file = FileOutcome.rewritten rows →
      rows.get? (j + 1) = some (serRow c) := by
  have hat := rowAttempts_false_of_already c hsi
  obtain ⟨h1, h2⟩ := run_not_attempted co f q cs j c hc hat
  refine ⟨h1, fun rows hrw => ?_⟩
  obtain ⟨_, hrows, _, _⟩ := run_file_rewritten co f q cs rows hrw
  rw [hrows, List.get?_cons_succ, List.get?_map, h2, hc]
  rfl

/-- Witness for C4 (concrete already-sent contact in a completed run). -/
def contactAna : Contact :=
  [(str "nombre", str "Ana Ruiz"), (str "email", str "a@x.com"),
   (str "device", str "ios"), (str "enviado", str "no"), (str "language", str "es")]

def contactSent : Contact :=
  [(str "nombre", str "Eva Gil"), (str "email", str "e@x.com"),
   (str "device", str "ios"), (str "enviado", str "Si "), (str "language", str "es")]

def contactAndroid : Contact :=
  [(str "nombre", str "Bob"), (str "email", str "b@x.com"),
   (str "device", str "android"), (str "enviado", str "no"), (str "language", str "en")]

def contactBlankName : Contact :=
  [(str "nombre", str "   "), (str "email", str "d@x.com"),
   (str "device", str "ios"), (str "enviado", str "no"), (str "language", str "es")]

def contactExtraKey : Contact :=
  [(str "nombre", str "Ana Ruiz"), (str "email", str "a@x.com"),
   (str "device", str "ios"), (str "enviado", str "no"), (str "language", str "es"),
   (str "notes", str "vip")]

theorem claim_C4_witness :
    ([contactAna, contactSent].get? 1 = some contactSent ∧
      pyStrip (pyLower (pyGet contactSent (str "enviado") (str "no"))) = str "si") ∧
    (1 ∉ (enviar_correos none (fun _ => true) true [contactAna, contactSent]).attempted ∧
      ∀ rows, (enviar_correos none (fun _ => true) true [contactAna, contactSent]).file =
          FileOutcome.rewritten rows →
        rows.get? 2 = some (serRow contactSent)) :=
  ⟨⟨by decide, by decide⟩,
    claim_C4 none (fun _ => true) true [contactAna, contactSent] 1 contactSent
      (by decide) (by decide)⟩

/-- Claim C5: a contact whose `device`, lowercased and trimmed, is
`android` reaches no send attempt, and in a run that rewrote the
contact-list file its row is the serialization of the original, unchanged
record. -/
theorem claim_C5 (co : Option ConnError) (f : Nat → Bool) (q : Bool)
    (cs : List Contact) (j : Nat) (c : Contact) (hc : cs.get? j = some c)
    (hdev : pyStrip (pyLower (pyGet c (str "device") (str "no"))) = str "android") :
    j ∉ (enviar_correos co f q cs).attempted ∧
    ∀ rows, (enviar_correos co f q cs).file = FileOutcome.rewritten rows →
      rows.get? (j + 1) = some (serRow c) := by
  have hat := rowAttempts_false_of_android c hdev
  obtain ⟨h1, h2⟩ := run_not_attempted co f q cs j c hc hat
  refine ⟨h1, fun rows hrw => ?_⟩
  obtain ⟨_, hrows, _, _⟩ := run_file_rewritten co f q cs rows hrw
  rw [hrows, List.get?_cons_succ, List.get?_map, h2, hc]
  rfl

theorem claim_C5_witness :
    ([contactAna, contactAndroid].get? 1 = some contactAndroid ∧
      pyStrip (pyLower (pyGet contactAndroid (str "device") (str "no"))) = str "android") ∧
    (1 ∉ (enviar_correos none (fun _ => true) true [contactAna, contactAndroid]).attempted ∧
      ∀ rows, (enviar_correos none (fun _ => true) true [contactAna, contactAndroid]).file =
          FileOutcome.rewritten rows →
        rows.get? 2 = some (serRow contactAndroid)) :=
  ⟨⟨by decide, by decide⟩,
    claim_C5 none (fun _ => true) true [contactAna, contactAndroid] 1 contactAndroid
      (by decide) (by decide)⟩

/-- Claim C1: after a run that completed (so in particular no fatal
connection error occurred), the contact-list file was rewritten as header
plus one serialized row per in-memory contact; every contact whose send
succeeded carries `enviado = 'si'` there, and every other contact
(skipped or failed) is persisted exactly as it was loaded, keeping its
prior `enviado` value. -/
theorem claim_C1 (co : Option ConnError) (f : Nat → Bool) (q : Bool)
    (cs : List Contact) (h : (enviar_correos co f q cs).ended = RunEnd.completed) :
    (enviar_correos co f q cs).file =
      FileOutcome.rewritten (fieldnames :: (enviar_correos co f q cs).contacts.map serRow) ∧
    (∀ j, j ∈ (enviar_correos co f q cs).sent →
      ((enviar_correos co f q cs).contacts.get? j).map
        (fun c => pyGet c (str "enviado") (str "")) = some (str "si")) ∧
    (∀ j, j ∉ (enviar_correos co f q cs).sent →
      (enviar_correos co f q cs).contacts.get? j = cs.get? j) := by
  have hch := run_completed_char co f q cs h
  rw [hch]
  simp only
  refine ⟨trivial, ?_, ?_⟩
  · intro j hj
    have hj0 : (0 + j) ∈ (processContacts f 0 cs).sent := by simpa using hj
    have hget := contacts_get_of_sent f 0 j cs hj0
    rw [hget]
    have hlt : j < cs.length := by
      obtain ⟨j2, hj2, hEq, _⟩ := mem_attempted_char f 0 cs j
        (sent_subset_attempted f 0 cs j hj)
      omega
    rw [List.get?_eq_get hlt]
    simp [pyGet_setField]
  · intro j hj
    exact contacts_get_of_not_sent f 0 j cs (by simpa using hj)

theorem claim_C1_witness :
    (enviar_correos none (fun _ => true) true [contactAna, contactSent]).ended =
        RunEnd.completed ∧
    ((enviar_correos none (fun _ => true) true [contactAna, contactSent]).file =
      FileOutcome.rewritten (fieldnames ::
        (enviar_correos none (fun _ => true) true [contactAna, contactSent]).contacts.map serRow) ∧
    (∀ j, j ∈ (enviar_correos none (fun _ => true) true [contactAna, contactSent]).sent →
      ((enviar_correos none (fun _ => true) true [contactAna, contactSent]).contacts.get? j).map
        (fun c => pyGet c (str "enviado") (str "")) = some (str "si")) ∧
    (∀ j, j ∉ (enviar_correos none (fun _ => true) true [contactAna, contactSent]).sent →
      (enviar_correos none (fun _ => true) true [contactAna, contactSent]).contacts.get? j =
        [contactAna, contactSent].get? j)) :=
  ⟨by decide, claim_C1 none (fun _ => true) true [contactAna, contactSent] (by decide)⟩

/-- Claim C2: if connection setup raises (any handled class, e.g. the
authentication error), no contact reaches a send attempt, nothing is sent,
the in-memory list is untouched, and the contact-list file is never opened
for writing, so its bytes are those of the input. -/
theorem claim_C2 (e : ConnError) (f : Nat → Bool) (q : Bool) (cs : List Contact) :
    (enviar_correos (some e) f q cs).attempted = [] ∧
    (enviar_correos (some e) f q cs).sent = [] ∧
    (enviar_correos (some e) f q cs).file = FileOutcome.untouched ∧
    (enviar_correos (some e) f q cs).contacts = cs := by
  unfold enviar_correos
  by_cases he : cs.isEmpty = true
  · rw [if_pos he]; exact ⟨rfl, rfl, rfl, rfl⟩
  · rw [if_neg he]
    by_cases hp : pendientesCount cs = 0
    · rw [if_pos hp]; exact ⟨rfl, rfl, rfl, rfl⟩
    · rw [if_neg hp]; exact ⟨rfl, rfl, rfl, rfl⟩

/-- Claim C10: when every loaded contact already has `enviado = 'si'`
(lowercased, trimmed), the run returns at the `pendientes == 0` check,
before any connection work: the result does not depend on the connection,
send or quit oracles at all, nothing is attempted and the file is left
untouched. -/
theorem claim_C10 (co : Option ConnError) (f : Nat → Bool) (q : Bool)
    (cs : List Contact)
    (h : ∀ c ∈ cs, pyStrip (pyLower (pyGet c (str "enviado") (str "no"))) = str "si") :
    (enviar_correos co f q cs).ended = RunEnd.earlyReturn ∧
    (enviar_correos co f q cs).file = FileOutcome.untouched ∧
    (enviar_correos co f q cs).attempted = [] ∧
    ∀ (co₂ : Option ConnError) (f₂ : Nat → Bool) (q₂ : Bool),
      enviar_correos co f q cs = enviar_correos co₂ f₂ q₂ cs := by
  have hp : pendientesCount cs = 0 := by
    rw [pendientesCount, List.countP_eq_zero]
    intro c hc
    simp [h c hc]
  have hrun : ∀ (co₂ : Option ConnError) (f₂ : Nat → Bool) (q₂ : Bool),
      enviar_correos co₂ f₂ q₂ cs = ⟨cs, [], [], .untouched, .earlyReturn⟩ := by
    intro co₂ f₂ q₂
    unfold enviar_correos
    by_cases he : cs.isEmpty = true
    · rw [if_pos he]
    · rw [if_neg he, if_pos hp]
  refine ⟨?_, ?_, ?_, ?_⟩
  · rw [hrun co f q]
  · rw [hrun co f q]
  · rw [hrun co f q]
  · intro co₂ f₂ q₂; rw [hrun co f q, hrun co₂ f₂ q₂]

theorem claim_C10_witness :
    (∀ c ∈ [contactSent], pyStrip (pyLower (pyGet c (str "enviado") (str "no"))) = str "si") ∧
    ((enviar_correos none (fun _ => true) true [contactSent]).ended = RunEnd.earlyReturn ∧
    (enviar_correos none (fun _ => true) true [contactSent]).file = FileOutcome.untouched ∧
    (enviar_correos none (fun _ => true) true [contactSent]).attempted = [] ∧
    ∀ (co₂ : Option ConnError) (f₂ : Nat → Bool) (q₂ : Bool),
      enviar_correos none (fun _ => true) true [contactSent] =
        enviar_correos co₂ f₂ q₂ [contactSent]) :=
  ⟨by decide, claim_C10 none (fun _ => true) true [contactSent] (by decide)⟩

/-- Claim C8: a contact whose `nombre` is empty or whitespace-only makes
line 268 raise `IndexError` before the row-skip test; the generic handler
of line 330 receives it, the rest of the batch is never attempted, and the
contact-list file is never rewritten.  Moreover the `not nombre` part of
the skip test is dead for every contact: a produced first token never
strips to empty. -/
theorem claim_C8 (f : Nat → Bool) (q : Bool) (cs : List Contact) (k : Nat) (c : Contact)
    (hk : cs.get? k = some c) (herr : rowFirstTok c = none)
    (hp : pendientesCount cs ≠ 0) :
    (enviar_correos none f q cs).ended = RunEnd.genericError ∧
    (enviar_correos none f q cs).file = FileOutcome.untouched ∧
    (∀ n ∈ (enviar_correos none f q cs).attempted, n < k) ∧
    (∀ s t, firstToken s = some t → (pyStrip t).isEmpty = false) := by
  have he : cs.isEmpty = false := by
    cases cs with
    | nil => simp at hk
    | cons c0 cs => rfl
  obtain ⟨hie, hb⟩ := indexError_of_err f 0 k cs c hk herr
  have hrun : enviar_correos none f q cs =
      ⟨(processContacts f 0 cs).contacts, (processContacts f 0 cs).attempted,
        (processContacts f 0 cs).sent, .untouched, .genericError⟩ := by
    unfold enviar_correos
    rw [if_neg (by simp [he]), if_neg hp]
    simp only
    rw [if_pos hie]
  rw [hrun]
  exact ⟨rfl, rfl, fun n hn => by have := hb n hn; omega,
    fun s t ht => firstToken_strip_nonempty s t ht⟩

theorem claim_C8_witness :
    ([contactAna, contactBlankName].get? 1 = some contactBlankName ∧
      rowFirstTok contactBlankName = none ∧
      pendientesCount [contactAna, contactBlankName] ≠ 0) ∧
    ((enviar_correos none (fun _ => true) true [contactAna, contactBlankName]).ended =
        RunEnd.genericError ∧
    (enviar_correos none (fun _ => true) true [contactAna, contactBlankName]).file =
        FileOutcome.untouched ∧
    (∀ n ∈ (enviar_correos none (fun _ => true) true [contactAna, contactBlankName]).attempted,
        n < 1) ∧
    (∀ s t, firstToken s = some t → (pyStrip t).isEmpty = false)) :=
  ⟨⟨by decide, by decide, by decide⟩,
    claim_C8 (fun _ => true) true [contactAna, contactBlankName] 1 contactBlankName
      (by decide) (by decide) (by decide)⟩

/-- Claim C9: persistence is not atomic.  With one processed contact whose
row carries a key (`notes`) outside the five fixed fieldnames, the rewrite
truncates the file, writes the header, and then `csv.DictWriter` raises
`ValueError` into the generic handler: the persisted file is exactly the
bare header — neither the original contents nor the complete new row set. -/
theorem claim_C9 :
    (enviar_correos none (fun _ => true) true [contactExtraKey]).file =
      FileOutcome.partiallyWritten [fieldnames] ∧
    (enviar_correos none (fun _ => true) true [contactExtraKey]).ended =
      RunEnd.genericError ∧
    (enviar_correos none (fun _ => true) true [contactExtraKey]).file ≠
      FileOutcome.untouched ∧
    ∀ rows, (enviar_correos none (fun _ => true) true [contactExtraKey]).file ≠
      FileOutcome.rewritten rows := by
  refine ⟨by decide, by decide, by decide, ?_⟩
  intro rows h
  rw [show (enviar_correos none (fun _ => true) true [contactExtraKey]).file =
    FileOutcome.partiallyWritten [fieldnames] from by decide] at h
  exact FileOutcome.noConfusion h

def contactAndroid2 : Contact :=
  [(str "nombre", str "Carlos Paz"), (str "email", str "c@x.com"),
   (str "device", str "ios"), (str "enviado", str "no"), (str "language", str "es")]

def contactCarla : Contact :=
  [(str "nombre", str "Carla Mas"), (str "email", str "m@x.com"),
   (str "device", str "ios"), (str "enviado", str "no"), (str "language", str "en")]

/-- Counterexample to claim C3 as stated.  Three pending contacts; the
connection is lost during contact 1's send, so that send and every later
`sendmail` raise (`sendOk n = (n == 0)`), and `server.quit()` raises too.
The loop does NOT halt: contact 2 is still attempted after the loss
(`attempted = [0, 1, 2]`), because every `sendmail` exception is caught by
the per-recipient handler of line 310.  The loss only surfaces as a generic
error at `quit`, and the file stays untouched. -/
theorem claim_C3_counterexample :
    (enviar_correos none (fun n => n == 0) false
        [contactAna, contactAndroid2, contactCarla]).attempted = [0, 1, 2] ∧
    (enviar_correos none (fun n => n == 0) false
        [contactAna, contactAndroid2, contactCarla]).sent = [0] ∧
    (enviar_correos none (fun n => n == 0) false
        [contactAna, contactAndroid2, contactCarla]).ended = RunEnd.genericError ∧
    (enviar_correos none (fun n => n == 0) false
        [contactAna, contactAndroid2, contactCarla]).file = FileOutcome.untouched := by
  refine ⟨by decide, by decide, by decide, by decide⟩

/-- Claim C3 as amended: after a mid-batch connection loss every remaining
contact's send is still attempted (each `sendmail` failure is caught per
recipient; the loop runs to the end of the list), the loss surfaces as a
generic error when `server.quit()` raises, and the contact-list file is not
rewritten at all — so every contact not marked sent (attempted or not)
retains its prior `enviado` value in the persisted file. -/
theorem claim_C3 (f : Nat → Bool) (cs : List Contact)
    (hne : ∀ c ∈ cs, rowFirstTok c ≠ none)
    (hp : pendientesCount cs ≠ 0) (hnil : cs ≠ []) :
    (enviar_correos none f false cs).ended = RunEnd.genericError ∧
    (enviar_correos none f false cs).file = FileOutcome.untouched ∧
    (∀ j c, cs.get? j = some c → rowAttempts c = true →
      j ∈ (enviar_correos none f false cs).attempted) ∧
    (∀ j, j ∉ (enviar_correos none f false cs).sent →
      (enviar_correos none f false cs).contacts.get? j = cs.get? j) := by
  have he : cs.isEmpty = false := by
    cases cs with
    | nil => exact absurd rfl hnil
    | cons c0 cs => rfl
  have hie := indexError_false f 0 cs hne
  have hrun : enviar_correos none f false cs =
      ⟨(processContacts f 0 cs).contacts, (processContacts f 0 cs).attempted,
        (processContacts f 0 cs).sent, .untouched, .genericError⟩ := by
    unfold enviar_correos
    rw [if_neg (by simp [he]), if_neg hp]
    simp only
    rw [if_neg (by simp [hie]), if_pos (by simp)]
  rw [hrun]
  refine ⟨rfl, rfl, ?_, ?_⟩
  · intro j c hc hat
    have := attempted_of_rowAttempts f 0 cs hie j c hc hat
    simpa using this
  · intro j hj
    exact contacts_get_of_not_sent f 0 j cs (by simpa using hj)

theorem claim_C3_witness :
    ((∀ c ∈ [contactAna, contactAndroid2, contactCarla], rowFirstTok c ≠ none) ∧
      pendientesCount [contactAna, contactAndroid2, contactCarla] ≠ 0 ∧
      ([contactAna, contactAndroid2, contactCarla] : List Contact) ≠ []) ∧
    ((enviar_correos none (fun n => n == 0) false
        [contactAna, contactAndroid2, contactCarla]).ended = RunEnd.genericError ∧
    (enviar_correos none (fun n => n == 0) false
        [contactAna, contactAndroid2, contactCarla]).file = FileOutcome.untouched ∧
    (∀ j c, [contactAna, contactAndroid2, contactCarla].get? j = some c →
      rowAttempts c = true →
      j ∈ (enviar_correos none (fun n => n == 0) false
        [contactAna, contactAndroid2, contactCarla]).attempted) ∧
    (∀ j, j ∉ (enviar_correos none (fun n => n == 0) false
        [contactAna, contactAndroid2, contactCarla]).sent →
      (enviar_correos none (fun n => n == 0) false
        [contactAna, contactAndroid2, contactCarla]).contacts.get? j =
        [contactAna, contactAndroid2, contactCarla].get? j)) :=
  ⟨⟨by decide, by decide, by decide⟩,
    claim_C3 (fun n => n == 0) [contactAna, contactAndroid2, contactCarla]
      (by decide) (by decide) (by decide)⟩

/-- Claim C7: rendering is deterministic on the placeholder substitution —
the produced HTML depends only on the template, the recipient's first name
and the image list, so any two renders with the same template and the same
first name (even from different full names) are byte-identical; in
particular rendering the same inputs twice gives identical output. -/
theorem claim_C7 (tmpl n₁ n₂ : Str) (images : List Str)
    (h : firstToken n₁ = firstToken n₂) :
    create_html_email_body n₁ tmpl images = create_html_email_body n₂ tmpl images := by
  unfold create_html_email_body
  rw [h]

theorem claim_C7_witness :
    firstToken (str "Ana Ruiz") = firstToken (str "Ana Lopez") ∧
    create_html_email_body (str "Ana Ruiz") (str "<p>Hola $name</p>") [str "logo.png"] =
      create_html_email_body (str "Ana Lopez") (str "<p>Hola $name</p>") [str "logo.png"] :=
  ⟨by decide,
    claim_C7 (str "<p>Hola $name</p>") (str "Ana Ruiz") (str "Ana Lopez")
      [str "logo.png"] (by decide)⟩

/-! ### Claim C6: image-reference rewriting

The claim reads the loop of lines 159-165 as a simultaneous replacement:
every `src="images/<filename>"` occurrence for a known filename becomes
`src="cid:<contentId>"`, all other text untouched.  `simulImages` below is
that reading, transcribed from the claim's words: scan the HTML left to
right; wherever the pattern of a known filename starts, emit its cid
reference and skip the pattern; otherwise copy the character.  The code's
sequential per-filename `str.replace` differs from it when one known
filename's pattern can overlap another's, which requires a double quote
inside a filename — legal in a directory listing, and exploited by the
counterexample.  For quote-free (and slash-free, as directory entries are)
filenames the two coincide, which is the amended claim. -/

/-- Specification-side simultaneous rewriting worker (fuel-structural). -/
def simulFuel (images : List Str) : Nat → Str → Str
  | 0, s => s
  | _ + 1, [] => []
  | n + 1, c :: cs =>
    match images.find? (fun g => (srcPat g).isPrefixOf (c :: cs)) with
    | some g => cidRef g ++ simulFuel images n (cs.drop ((srcPat g).length - 1))
    | none => c :: simulFuel images n cs

/-- Modelled from the claim's words (not from the code): simultaneous
replacement of every known `src="images/..."` pattern by its
`src="cid:..."` reference, leaving all other characters unchanged. -/
def simulImages (images : List Str) (s : Str) : Str := simulFuel images s.length s

theorem simulFuel_fuel (images : List Str) :
    ∀ n s, s.length ≤ n → simulFuel images n s = simulFuel images s.length s := by
  intro n
  induction n using Nat.strong_induction_on with
  | _ n ih =>
    intro s hs
    match n, s with
    | 0, s =>
      have : s = [] := by
        cases s with
        | nil => rfl
        | cons c cs => simp at hs
      subst this; rfl
    | n + 1, [] => rfl
    | n + 1, c :: cs =>
      have hcs : cs.length ≤ n := by simp only [List.length_cons] at hs; omega
      cases hf : images.find? (fun g => (srcPat g).isPrefixOf (c :: cs)) with
      | some g =>
        have hd : (cs.drop ((srcPat g).length - 1)).length ≤ cs.length := by
          have := List.length_drop ((srcPat g).length - 1) cs; omega
        simp only [simulFuel, List.length_cons, hf]
        rw [ih n (by omega) _ (le_trans hd hcs), ih cs.length (by omega) _ hd]
      | none =>
        simp only [simulFuel, List.length_cons, hf]
        rw [ih n (by omega) _ hcs, ih cs.length (by omega) _ (le_refl _)]

@[simp] theorem simulImages_nil (images : List Str) : simulImages images [] = [] := rfl

/-- One-step unfolding of `simulImages` on a nonempty string. -/
theorem simulImages_cons (images : List Str) (c : Char) (cs : Str) :
    simulImages images (c :: cs) =
      match images.find? (fun g => (srcPat g).isPrefixOf (c :: cs)) with
      | some g => cidRef g ++ simulImages images (cs.drop ((srcPat g).length - 1))
      | none => c :: simulImages images cs := by
  show simulFuel images (cs.length + 1) (c :: cs) = _
  cases hf : images.find? (fun g => (srcPat g).isPrefixOf (c :: cs)) with
  | some g =>
    simp only [simulFuel, simulImages, hf]
    rw [simulFuel_fuel images cs.length _
      (by have := List.length_drop ((srcPat g).length - 1) cs; omega)]
  | none => simp only [simulFuel, simulImages, hf]

/-- Counterexample to claim C6 as stated.  Take the two legal image
filenames `a.png` and `a.png"x.png` (a double quote is a legal filename
character, and both names pass the extension filter of
`get_images_to_embed`).  Let the HTML be exactly the known pattern
`src="images/a.png"x.png"` of the second filename.  The claim says this
substring must become `src="cid:a_png"x_png"`; the code's sequential
replacement instead consumes its prefix `src="images/a.png"` (the first
filename's pattern) and produces `src="cid:a_png"x.png"`, in which the
second filename's `.` was never rewritten to `_`. -/
theorem claim_C6_counterexample :
    (str "a.png\"x.png") ∈ [str "a.png", str "a.png\"x.png"] ∧
    rewriteImages [str "a.png", str "a.png\"x.png"]
        (srcPat (str "a.png\"x.png")) ≠ cidRef (str "a.png\"x.png") ∧
    rewriteImages [str "a.png", str "a.png\"x.png"]
        (srcPat (str "a.png\"x.png")) = str "src=\"cid:a_png\"x.png\"" := by
  exact ⟨by decide, by decide, by decide⟩

/-! ### Overlap-freedom core for the amended C6

The patterns `src="images/<f>"` and references `src="cid:<cid>"` share the
shape `src="` + body + `"`.  When no filename contains a double quote and
none ends in `=`, a nonempty strict suffix of such a quoted block can
neither start with the header `src="` nor be extended into one — the
combinatorial fact behind: pattern occurrences never overlap, replacements
never create or destroy occurrences. -/

/-- The double-quote character. -/
abbrev q34 : Char := Char.ofNat 34

/-- The five-character header `src="` shared by patterns and references. -/
def hdr : Str := str "src=\""

/-- A filename for which sequential and simultaneous rewriting agree: no
embedded double quote, and not ending in `=`. Real directory entries
produced by `get_images_to_embed` (names ending in an image extension)
satisfy both. -/
def benignName (g : Str) : Prop := q34 ∉ g ∧ g.getLast? ≠ some '='

instance (g : Str) : Decidable (benignName g) := by
  unfold benignName; infer_instance

theorem hdr_cons (Z : Str) : hdr ++ Z = 's' :: 'r' :: 'c' :: '=' :: q34 :: Z := by
  rw [show hdr = ['s', 'r', 'c', '=', q34] from by decide]
  rfl

theorem srcPat_decomp (f : Str) : srcPat f = hdr ++ (str "images/" ++ f ++ [q34]) := by
  rw [srcPat, show str "src=\"images/" = hdr ++ str "images/" from by decide]
  simp [List.append_assoc]

theorem cidRef_decomp (f : Str) : cidRef f = hdr ++ (str "cid:" ++ cidOf f ++ [q34]) := by
  rw [cidRef, show str "src=\"cid:" = hdr ++ str "cid:" from by decide]
  simp [List.append_assoc]

theorem suffix_append_cases {α : Type} (l₁ l₂ s : List α) (h : s <:+ l₁ ++ l₂) :
    s <:+ l₂ ∨ ∃ t, t <:+ l₁ ∧ s = t ++ l₂ := by
  induction l₁ with
  | nil => exact Or.inl (by simpa using h)
  | cons a l₁ ih =>
    rw [List.cons_append, List.suffix_cons_iff] at h
    rcases h with rfl | h
    · exact Or.inr ⟨a :: l₁, List.suffix_refl _, by simp⟩
    · rcases ih h with h | ⟨t, ht, rfl⟩
      · exact Or.inl h
      · exact Or.inr ⟨t, ht.trans (List.suffix_cons a l₁), rfl⟩

theorem getLast?_of_suffix (B l : Str) (h : B <:+ l) (hne : B ≠ []) :
    l.getLast? = B.getLast? := by
  obtain ⟨T, rfl⟩ := h
  exact List.getLast?_append_of_ne_nil T hne

theorem hdr_eq : hdr = ['s', 'r', 'c', '=', q34] := by decide

theorem not_pref_of_head (a : Char) (R Z : Str) (ha : a ≠ 's') :
    ¬ (a :: R <+: hdr ++ Z) := by
  rw [hdr_cons]
  intro hp
  exact ha (List.cons_prefix_cons.mp hp).1

theorem not_hdr_pref_of_head (a : Char) (R Z : Str) (ha : 's' ≠ a) :
    ¬ (hdr <+: (a :: R) ++ Z) := by
  rw [hdr_eq]
  intro hp
  rw [List.cons_append] at hp
  exact ha (List.cons_prefix_cons.mp hp).1

/-- Core conflict lemma: a nonempty strict suffix `S` of a quoted block
`src="body"` (body quote-free, not ending in `=`) is incompatible with the
header: `S` extended by anything never starts a header-led string, and a
header-led string never starts with `S`. -/
theorem quoted_suffix_conflict (body S : Str)
    (hq : q34 ∉ body) (hl : body.getLast? ≠ some '=')
    (hS : S <:+ hdr ++ (body ++ [q34]))
    (hne : S ≠ hdr ++ (body ++ [q34])) (hS0 : S ≠ []) :
    (∀ Z, ¬ S <+: hdr ++ Z) ∧ (∀ Z, ¬ hdr <+: S ++ Z) := by
  rw [hdr_cons] at hS hne
  rw [List.suffix_cons_iff] at hS
  rcases hS with rfl | hS
  · exact absurd rfl hne
  rw [List.suffix_cons_iff] at hS
  rcases hS with rfl | hS
  · exact ⟨fun Z => not_pref_of_head _ _ Z (by decide),
      fun Z => not_hdr_pref_of_head _ _ Z (by decide)⟩
  rw [List.suffix_cons_iff] at hS
  rcases hS with rfl | hS
  · exact ⟨fun Z => not_pref_of_head _ _ Z (by decide),
      fun Z => not_hdr_pref_of_head _ _ Z (by decide)⟩
  rw [List.suffix_cons_iff] at hS
  rcases hS with rfl | hS
  · exact ⟨fun Z => not_pref_of_head _ _ Z (by decide),
      fun Z => not_hdr_pref_of_head _ _ Z (by decide)⟩
  rw [List.suffix_cons_iff] at hS
  rcases hS with rfl | hS
  · exact ⟨fun Z => not_pref_of_head _ _ Z (by decide),
      fun Z => not_hdr_pref_of_head _ _ Z (by decide)⟩
  rcases suffix_append_cases body [q34] S hS with hS | ⟨B₂, hB₂, rfl⟩
  · rw [List.suffix_cons_iff] at hS
    rcases hS with rfl | hS
    · exact ⟨fun Z => not_pref_of_head _ _ Z (by decide),
        fun Z => not_hdr_pref_of_head _ _ Z (by decide)⟩
    · simp only [List.suffix_nil] at hS
      exact absurd hS hS0
  · have hsub : ∀ x ∈ B₂, x ∈ body := fun x hx => hB₂.subset hx
    rcases B₂ with _ | ⟨b0, B₂⟩
    · exact ⟨fun Z => by
        rw [List.nil_append]
        exact not_pref_of_head _ _ Z (by decide),
      fun Z => by
        rw [List.nil_append]
        exact not_hdr_pref_of_head _ _ Z (by decide)⟩
    rcases B₂ with _ | ⟨b1, B₂⟩
    · constructor
      · intro Z hp
        rw [hdr_cons] at hp
        simp only [List.cons_append, List.nil_append] at hp
        obtain ⟨_, hp⟩ := List.cons_prefix_cons.mp hp
        exact absurd (List.cons_prefix_cons.mp hp).1 (by decide)
      · intro Z hp
        rw [hdr_eq] at hp
        simp only [List.cons_append, List.nil_append] at hp
        obtain ⟨_, hp⟩ := List.cons_prefix_cons.mp hp
        exact absurd (List.cons_prefix_cons.mp hp).1 (by decide)
    rcases B₂ with _ | ⟨b2, B₂⟩
    · constructor
      · intro Z hp
        rw [hdr_cons] at hp
        simp only [List.cons_append, List.nil_append] at hp
        obtain ⟨_, hp⟩ := List.cons_prefix_cons.mp hp
        obtain ⟨_, hp⟩ := List.cons_prefix_cons.mp hp
        exact absurd (List.cons_prefix_cons.mp hp).1 (by decide)
      · intro Z hp
        rw [hdr_eq] at hp
        simp only [List.cons_append, List.nil_append] at hp
        obtain ⟨_, hp⟩ := List.cons_prefix_cons.mp hp
        obtain ⟨_, hp⟩ := List.cons_prefix_cons.mp hp
        exact absurd (List.cons_prefix_cons.mp hp).1 (by decide)
    rcases B₂ with _ | ⟨b3, B₂⟩
    · constructor
      · intro Z hp
        rw [hdr_cons] at hp
        simp only [List.cons_append, List.nil_append] at hp
        obtain ⟨_, hp⟩ := List.cons_prefix_cons.mp hp
        obtain ⟨_, hp⟩ := List.cons_prefix_cons.mp hp
        obtain ⟨_, hp⟩ := List.cons_prefix_cons.mp hp
        exact absurd (List.cons_prefix_cons.mp hp).1 (by decide)
      · intro Z hp
        rw [hdr_eq] at hp
        simp only [List.cons_append, List.nil_append] at hp
        obtain ⟨_, hp⟩ := List.cons_prefix_cons.mp hp
        obtain ⟨_, hp⟩ := List.cons_prefix_cons.mp hp
        obtain ⟨_, hp⟩ := List.cons_prefix_cons.mp hp
        exact absurd (List.cons_prefix_cons.mp hp).1 (by decide)
    rcases B₂ with _ | ⟨b4, B₂⟩
    · have hlast : body.getLast? = some b3 :=
        getLast?_of_suffix [b0, b1, b2, b3] body hB₂ (by simp)
      constructor
      · intro Z hp
        rw [hdr_cons] at hp
        simp only [List.cons_append, List.nil_append] at hp
        obtain ⟨_, hp⟩ := List.cons_prefix_cons.mp hp
        obtain ⟨_, hp⟩ := List.cons_prefix_cons.mp hp
        obtain ⟨_, hp⟩ := List.cons_prefix_cons.mp hp
        obtain ⟨hb3, _⟩ := List.cons_prefix_cons.mp hp
        rw [hb3] at hlast
        exact hl hlast
      · intro Z hp
        rw [hdr_eq] at hp
        simp only [List.cons_append, List.nil_append] at hp
        obtain ⟨_, hp⟩ := List.cons_prefix_cons.mp hp
        obtain ⟨_, hp⟩ := List.cons_prefix_cons.mp hp
        obtain ⟨_, hp⟩ := List.cons_prefix_cons.mp hp
        obtain ⟨hb3, _⟩ := List.cons_prefix_cons.mp hp
        rw [← hb3] at hlast
        exact hl hlast
    · have hb4 : b4 ∈ body := hsub b4 (by simp)
      constructor
      · intro Z hp
        rw [hdr_cons] at hp
        simp only [List.cons_append] at hp
        obtain ⟨_, hp⟩ := List.cons_prefix_cons.mp hp
        obtain ⟨_, hp⟩ := List.cons_prefix_cons.mp hp
        obtain ⟨_, hp⟩ := List.cons_prefix_cons.mp hp
        obtain ⟨_, hp⟩ := List.cons_prefix_cons.mp hp
        obtain ⟨hb4q, _⟩ := List.cons_prefix_cons.mp hp
        rw [hb4q] at hb4
        exact hq hb4
      · intro Z hp
        rw [hdr_eq] at hp
        simp only [List.cons_append] at hp
        obtain ⟨_, hp⟩ := List.cons_prefix_cons.mp hp
        obtain ⟨_, hp⟩ := List.cons_prefix_cons.mp hp
        obtain ⟨_, hp⟩ := List.cons_prefix_cons.mp hp
        obtain ⟨_, hp⟩ := List.cons_prefix_cons.mp hp
        obtain ⟨hb4q, _⟩ := List.cons_prefix_cons.mp hp
        rw [← hb4q] at hb4
        exact hq hb4


theorem srcPat_ne_nil (g : Str) : srcPat g ≠ [] := by
  rw [srcPat_decomp, hdr_cons]
  simp

theorem cidOf_eq_map (f : Str) :
    cidOf f = f.map fun c => if c = '.' then '_' else c := by
  rw [cidOf, show str "." = ['.'] from by decide, show str "_" = ['_'] from by decide]
  exact pyReplace_single '.' '_' f

/-- The pattern body `images/<g>` of a benign filename is quote-free and
does not end in `=`. -/
theorem benign_imgBody (g : Str) (hb : benignName g) :
    q34 ∉ (str "images/" ++ g) ∧ (str "images/" ++ g).getLast? ≠ some '=' := by
  obtain ⟨hq, hl⟩ := hb
  constructor
  · intro hmem
    rcases List.mem_append.mp hmem with h | h
    · exact absurd h (by decide)
    · exact hq h
  · cases g with
    | nil => decide
    | cons c g =>
      rw [List.getLast?_append_of_ne_nil _ (by simp)]
      exact hl

/-- The reference body `cid:<cidOf f>` of a benign filename is quote-free
and does not end in `=`. -/
theorem benign_cidBody (f : Str) (hb : benignName f) :
    q34 ∉ (str "cid:" ++ cidOf f) ∧ (str "cid:" ++ cidOf f).getLast? ≠ some '=' := by
  obtain ⟨hq, hl⟩ := hb
  constructor
  · intro hmem
    rcases List.mem_append.mp hmem with h | h
    · exact absurd h (by decide)
    · rw [cidOf_eq_map] at h
      obtain ⟨c, hc, hcq⟩ := List.mem_map.mp h
      by_cases hdot : c = '.'
      · rw [if_pos hdot] at hcq
        exact absurd hcq (by decide)
      · rw [if_neg hdot] at hcq
        rw [hcq] at hc
        exact hq hc
  · cases f with
    | nil =>
      rw [cidOf_eq_map]
      decide
    | cons c g =>
      obtain ⟨x, hx⟩ : ∃ x, (c :: g).getLast? = some x :=
        ⟨(c :: g).getLast (by simp), List.getLast?_eq_getLast _ (by simp)⟩
      have hxne : x ≠ '=' := fun hcon => hl (by rw [hx, hcon])
      rw [cidOf_eq_map, List.getLast?_append_of_ne_nil _ (by simp),
        List.getLast?_map, hx]
      intro hcon
      have heq : (if x = '.' then '_' else x) = '=' := by simpa using hcon
      by_cases hdot : x = '.'
      · rw [if_pos hdot] at heq
        exact absurd heq (by decide)
      · rw [if_neg hdot] at heq
        exact hxne heq

theorem quote_end_inj (g₁ g₂ : Str) (hq2 : q34 ∉ g₂)
    (h : g₁ ++ [q34] <+: g₂ ++ [q34]) : g₁ = g₂ := by
  induction g₁ generalizing g₂ with
  | nil =>
    cases g₂ with
    | nil => rfl
    | cons c g₂ =>
      rw [List.nil_append, List.cons_append] at h
      have hqc := (List.cons_prefix_cons.mp h).1
      rw [hqc] at hq2
      exact absurd (by simp) hq2
  | cons a g₁ ih =>
    cases g₂ with
    | nil =>
      rw [List.cons_append, List.nil_append] at h
      obtain ⟨_, h2⟩ := List.cons_prefix_cons.mp h
      have := List.prefix_nil.mp h2
      exact absurd this (by simp)
    | cons c g₂ =>
      rw [List.cons_append, List.cons_append] at h
      obtain ⟨hac, h2⟩ := List.cons_prefix_cons.mp h
      rw [hac, ih g₂ (fun hm => hq2 (List.mem_cons_of_mem c hm)) h2]

/-- Two known patterns matching at the same position name the same file
(quote-free filenames). -/
theorem srcPat_match_unique (g₁ g₂ s : Str) (hq1 : q34 ∉ g₁) (hq2 : q34 ∉ g₂)
    (h1 : srcPat g₁ <+: s) (h2 : srcPat g₂ <+: s) : g₁ = g₂ := by
  have strip : ∀ ga gb : Str, srcPat ga <+: srcPat gb → ga ++ [q34] <+: gb ++ [q34] := by
    intro ga gb h
    rw [srcPat_decomp, srcPat_decomp, List.append_assoc (str "images/"),
      List.append_assoc (str "images/")] at h
    exact (List.prefix_append_right_inj _).mp ((List.prefix_append_right_inj hdr).mp h)
  rcases List.prefix_or_prefix_of_prefix h1 h2 with h | h
  · exact quote_end_inj g₁ g₂ hq2 (strip _ _ h)
  · exact (quote_end_inj g₂ g₁ hq1 (strip _ _ h)).symm

/-- A pattern never matches at the start of a cid reference. -/
theorem srcPat_not_pref_cidRef (g f X : Str) : ¬ srcPat g <+: cidRef f ++ X := by
  rw [srcPat_decomp, cidRef_decomp]
  intro hp
  rw [List.append_assoc hdr _ X] at hp
  have h2 := (List.prefix_append_right_inj hdr).mp hp
  simp only [show str "images/" = 'i' :: str "mages/" from by decide,
    show str "cid:" = 'c' :: str "id:" from by decide,
    List.cons_append, List.append_assoc] at h2
  exact absurd (List.cons_prefix_cons.mp h2).1 (by decide)

/-- First-match decomposition of `str.replace`: either no match occurs
anywhere and the string is returned unchanged, or the string splits around
the leftmost match. -/
theorem pyReplace_decomp (pat rep s : Str) (hpat : pat ≠ []) :
    (pyReplace s pat rep = s ∧ ∀ t, t <:+ s → ¬ pat <+: t) ∨
    ∃ A rest, s = A ++ pat ++ rest ∧
      pyReplace s pat rep = A ++ rep ++ pyReplace rest pat rep ∧
      (∀ A₁ A₂, A = A₁ ++ A₂ → A₂ ≠ [] → ¬ pat <+: A₂ ++ pat ++ rest) := by
  induction s with
  | nil =>
    left
    refine ⟨rfl, fun t ht hpt => ?_⟩
    rw [List.suffix_nil.mp ht] at hpt
    exact hpat (List.prefix_nil.mp hpt)
  | cons c cs ih =>
    by_cases hp : pat <+: (c :: cs)
    · right
      obtain ⟨Y, hY⟩ := hp
      refine ⟨[], Y, by simp [← hY], ?_, by simp⟩
      rw [List.nil_append, ← hY, pyReplace_head_match pat rep Y hpat]
    · have hpb : pat.isPrefixOf (c :: cs) = false := by
        cases hh : pat.isPrefixOf (c :: cs) with
        | true => exact absurd ( List.isPrefixOf_iff_prefix.mp hh) hp
        | false => rfl
      rcases ih with ⟨he, hnm⟩ | ⟨A, rest, hAs, hpr, hcond⟩
      · left
        constructor
        · rw [pyReplace_cons, hpb]
          simp [he]
        · intro t ht hpt
          rw [List.suffix_cons_iff] at ht
          rcases ht with rfl | ht
          · exact hp hpt
          · exact hnm t ht hpt
      · right
        refine ⟨c :: A, rest, by simp [hAs], ?_, ?_⟩
        · rw [pyReplace_cons, hpb]
          rw [if_neg (by simp), hpr]
          simp only [List.cons_append]
        · intro A₁ A₂ hsplit hA2
          cases A₁ with
          | nil =>
            simp only [List.nil_append] at hsplit
            subst hsplit
            intro hpt
            rw [List.cons_append, List.cons_append] at hpt
            rw [hAs] at hp
            exact hp (by simpa using hpt)
          | cons a A₁ =>
            simp only [List.cons_append, List.cons.injEq] at hsplit
            exact hcond A₁ A₂ hsplit.2 hA2

/-- Replacing a benign filename's pattern cannot create a match of another
benign filename's pattern at the front of the string. -/
theorem match_head_preserved (f0 g s : Str) (hbg : benignName g)
    (hno : ¬ srcPat f0 <+: s)
    (hg : srcPat g <+: pyReplace s (srcPat f0) (cidRef f0)) : srcPat g <+: s := by
  rcases pyReplace_decomp (srcPat f0) (cidRef f0) s (srcPat_ne_nil f0) with
    ⟨he, _⟩ | ⟨A, rest, hAs, hpr, _⟩
  · rwa [he] at hg
  · have hA : A ≠ [] := by
      intro h0
      rw [h0, List.nil_append] at hAs
      exact hno (hAs ▸ ⟨rest, rfl⟩)
    rw [hpr, List.append_assoc] at hg
    have hApre : A <+: A ++ (cidRef f0 ++ pyReplace rest (srcPat f0) (cidRef f0)) :=
      ⟨_, rfl⟩
    rcases List.prefix_or_prefix_of_prefix hg hApre with h | h
    · rw [hAs]
      exact h.trans ⟨srcPat f0 ++ rest, (List.append_assoc A (srcPat f0) rest).symm⟩
    · obtain ⟨G₂, hG⟩ := h
      by_cases hG2 : G₂ = []
      · rw [hG2, List.append_nil] at hG
        rw [hAs, ← hG]
        exact ⟨srcPat f0 ++ rest, (List.append_assoc A (srcPat f0) rest).symm⟩
      · have hGsuf : G₂ <:+ srcPat g := ⟨A, hG⟩
        have hGne : G₂ ≠ srcPat g := by
          intro hcon
          rw [hcon] at hG
          have hlen := congrArg List.length hG
          simp only [List.length_append] at hlen
          exact hG2 (by
            have hA0 : A.length = 0 := by omega
            have : A = [] := List.length_eq_zero.mp hA0
            exact absurd this hA)
        rw [← hG] at hg
        have hG₂pre := (List.prefix_append_right_inj A).mp hg
        obtain ⟨hbq, hbl⟩ := benign_imgBody g hbg
        have hconf := quoted_suffix_conflict (str "images/" ++ g) G₂ hbq hbl
          (by rw [← srcPat_decomp]; exact hGsuf)
          (by rw [← srcPat_decomp]; exact hGne) hG2
        rw [cidRef_decomp, List.append_assoc] at hG₂pre
        exact absurd hG₂pre (hconf.1 _)


theorem hdr_pref_srcPat (g : Str) : hdr <+: srcPat g := by
  rw [srcPat_decomp]
  exact ⟨_, rfl⟩

theorem simul_nil_images (s : Str) : simulImages [] s = s := by
  induction s with
  | nil => rfl
  | cons c cs ih =>
    rw [simulImages_cons]
    simp only [List.find?_nil]
    rw [ih]

theorem simul_append_no_match (fs : List Str) (A B : Str)
    (h : ∀ A₁ A₂, A = A₁ ++ A₂ → A₂ ≠ [] → ∀ g ∈ fs, ¬ srcPat g <+: A₂ ++ B) :
    simulImages fs (A ++ B) = A ++ simulImages fs B := by
  induction A with
  | nil => rfl
  | cons c A' ih =>
    rw [List.cons_append, simulImages_cons]
    have hnone : fs.find? (fun g => (srcPat g).isPrefixOf (c :: (A' ++ B))) = none := by
      rw [List.find?_eq_none]
      intro g hg
      simp only [Bool.not_eq_true]
      cases hip : (srcPat g).isPrefixOf (c :: (A' ++ B)) with
      | true =>
        exact absurd ( List.isPrefixOf_iff_prefix.mp hip)
          (by simpa using h [] (c :: A') rfl (by simp) g hg)
      | false => rfl
    simp only [hnone]
    rw [ih fun A₁ A₂ hA hne => h (c :: A₁) A₂ (by simp [hA]) hne, List.cons_append]

theorem simul_head_match (fs : List Str) (g Y : Str) (hg : g ∈ fs)
    (huniq : ∀ g' ∈ fs, srcPat g' <+: srcPat g ++ Y → g' = g) :
    simulImages fs (srcPat g ++ Y) = cidRef g ++ simulImages fs Y := by
  have hSome : (fs.find? fun gp => (srcPat gp).isPrefixOf (srcPat g ++ Y)).isSome :=
    List.find?_isSome.mpr ⟨g, hg, by rw [ List.isPrefixOf_iff_prefix]; exact ⟨Y, rfl⟩⟩
  obtain ⟨g2, hfind⟩ := Option.isSome_iff_exists.mp hSome
  have hp2 : (srcPat g2).isPrefixOf (srcPat g ++ Y) = true := by
    have := List.find?_some hfind
    simpa using this
  have hg2 : g2 = g := huniq g2 (List.mem_of_find?_eq_some hfind)
    ( List.isPrefixOf_iff_prefix.mp hp2)
  subst hg2
  rcases hS : srcPat g2 ++ Y with _ | ⟨c, cs⟩
  · have := srcPat_ne_nil g2
    rw [List.append_eq_nil] at hS
    exact absurd hS.1 this
  · have hdrop : cs.drop ((srcPat g2).length - 1) = Y := by
      have h1 : (c :: cs).drop (srcPat g2).length = Y := by
        rw [← hS]
        exact List.drop_left _ _
      have hpos : 0 < (srcPat g2).length := List.length_pos.mpr (srcPat_ne_nil g2)
      have h2 : (srcPat g2).length = ((srcPat g2).length - 1) + 1 := by omega
      rw [h2, List.drop_succ_cons] at h1
      exact h1
    rw [hS] at hfind
    rw [simulImages_cons, hfind]
    show cidRef g2 ++ simulImages fs (cs.drop ((srcPat g2).length - 1)) =
      cidRef g2 ++ simulImages fs Y
    rw [hdrop]

theorem strict_suffix_of_split (W A₁ A₂ : Str) (hsplit : W = A₁ ++ A₂) (hA1 : A₁ ≠ []) :
    A₂ <:+ W ∧ A₂ ≠ W := by
  refine ⟨⟨A₁, hsplit.symm⟩, ?_⟩
  intro hcon
  have := congrArg List.length hsplit
  rw [hcon, List.length_append] at this
  have : A₁.length = 0 := by omega
  exact hA1 (List.length_eq_zero.mp this)

/-- One fold step of the code's sequential rewriting agrees with erasing
the head filename from the simultaneous rewriting, for benign filenames. -/
theorem replace_simul_step (f0 : Str) (fs : List Str) (hbf : benignName f0)
    (hbs : ∀ g ∈ fs, benignName g) :
    ∀ s, simulImages fs (pyReplace s (srcPat f0) (cidRef f0)) = simulImages (f0 :: fs) s := by
  suffices H : ∀ n s, s.length = n →
      simulImages fs (pyReplace s (srcPat f0) (cidRef f0)) = simulImages (f0 :: fs) s by
    intro s
    exact H s.length s rfl
  intro n
  induction n using Nat.strong_induction_on with
  | _ n ih =>
    intro s hn
    cases s with
    | nil => rfl
    | cons c cs =>
      by_cases hf0 : srcPat f0 <+: (c :: cs)
      · obtain ⟨Y, hY⟩ := hf0
        rw [← hY, pyReplace_head_match _ _ _ (srcPat_ne_nil f0)]
        have hpass : simulImages fs (cidRef f0 ++ pyReplace Y (srcPat f0) (cidRef f0)) =
            cidRef f0 ++ simulImages fs (pyReplace Y (srcPat f0) (cidRef f0)) := by
          refine simul_append_no_match fs (cidRef f0) _ ?_
          intro A₁ A₂ hA hne g hg hpre
          cases A₁ with
          | nil =>
            rw [List.nil_append] at hA
            rw [← hA] at hpre
            exact srcPat_not_pref_cidRef g f0 _ hpre
          | cons a A₁ =>
            obtain ⟨hsuf, hne2⟩ := strict_suffix_of_split _ _ _ hA (by simp)
            obtain ⟨hbq, hbl⟩ := benign_cidBody f0 hbf
            have hconf := quoted_suffix_conflict (str "cid:" ++ cidOf f0) A₂ hbq hbl
              (by rw [← cidRef_decomp]; exact hsuf)
              (by rw [← cidRef_decomp]; exact hne2) hne
            exact hconf.2 _ ((hdr_pref_srcPat g).trans hpre)
        rw [hpass]
        have hhead : simulImages (f0 :: fs) (srcPat f0 ++ Y) =
            cidRef f0 ++ simulImages (f0 :: fs) Y := by
          refine simul_head_match (f0 :: fs) f0 Y (by simp) ?_
          intro g2 hg2 hpre
          have hb2 : benignName g2 := by
            rcases List.mem_cons.mp hg2 with rfl | hg2
            · exact hbf
            · exact hbs g2 hg2
          exact srcPat_match_unique g2 f0 (srcPat f0 ++ Y) hb2.1 hbf.1 hpre ⟨Y, rfl⟩
        rw [hhead]
        congr 1
        refine ih Y.length ?_ Y rfl
        have := congrArg List.length hY
        have hpos : 0 < (srcPat f0).length := List.length_pos.mpr (srcPat_ne_nil f0)
        simp only [List.length_append, List.length_cons] at this
        simp only [List.length_cons] at hn
        omega
      · by_cases hgEx : ∃ g, g ∈ fs ∧ srcPat g <+: (c :: cs)
        · obtain ⟨g, hgfs, ⟨Y, hY⟩⟩ := hgEx
          rw [← hY] at hf0 ⊢
          have hwalk : pyReplace (srcPat g ++ Y) (srcPat f0) (cidRef f0) =
              srcPat g ++ pyReplace Y (srcPat f0) (cidRef f0) := by
            refine pyReplace_append_of_no_match _ _ (srcPat g) Y ?_
            intro A₁ A₂ hA hne hpre
            cases A₁ with
            | nil =>
              rw [List.nil_append] at hA
              rw [← hA] at hpre
              exact hf0 hpre
            | cons a A₁ =>
              obtain ⟨hsuf, hne2⟩ := strict_suffix_of_split _ _ _ hA (by simp)
              obtain ⟨hbq, hbl⟩ := benign_imgBody g (hbs g hgfs)
              have hconf := quoted_suffix_conflict (str "images/" ++ g) A₂ hbq hbl
                (by rw [← srcPat_decomp]; exact hsuf)
                (by rw [← srcPat_decomp]; exact hne2) hne
              exact hconf.2 _ ((hdr_pref_srcPat f0).trans hpre)
          rw [hwalk]
          have huniqfs : ∀ g2 ∈ fs,
              srcPat g2 <+: srcPat g ++ pyReplace Y (srcPat f0) (cidRef f0) → g2 = g := by
            intro g2 hg2 hpre
            exact srcPat_match_unique g2 g _ (hbs g2 hg2).1 (hbs g hgfs).1 hpre ⟨_, rfl⟩
          rw [simul_head_match fs g _ hgfs huniqfs]
          have huniqall : ∀ g2 ∈ f0 :: fs, srcPat g2 <+: srcPat g ++ Y → g2 = g := by
            intro g2 hg2 hpre
            rcases List.mem_cons.mp hg2 with rfl | hg2
            · exact absurd hpre hf0
            · exact srcPat_match_unique g2 g _ (hbs g2 hg2).1 (hbs g hgfs).1 hpre ⟨Y, rfl⟩
          rw [simul_head_match (f0 :: fs) g Y (by simp [hgfs]) huniqall]
          congr 1
          refine ih Y.length ?_ Y rfl
          have := congrArg List.length hY
          have hpos : 0 < (srcPat g).length := List.length_pos.mpr (srcPat_ne_nil g)
          simp only [List.length_append, List.length_cons] at this
          simp only [List.length_cons] at hn
          omega
        · push_neg at hgEx
          have hpb : (srcPat f0).isPrefixOf (c :: cs) = false := by
            cases hh : (srcPat f0).isPrefixOf (c :: cs) with
            | true => exact absurd ( List.isPrefixOf_iff_prefix.mp hh) hf0
            | false => rfl
          rw [pyReplace_cons, hpb]
          simp only [Bool.false_eq_true, if_false]
          have hnone1 : fs.find?
              (fun g => (srcPat g).isPrefixOf
                (c :: pyReplace cs (srcPat f0) (cidRef f0))) = none := by
            rw [List.find?_eq_none]
            intro g hg
            simp only [Bool.not_eq_true]
            cases hip : (srcPat g).isPrefixOf (c :: pyReplace cs (srcPat f0) (cidRef f0)) with
            | true =>
              have hpre := List.isPrefixOf_iff_prefix.mp hip
              have hrepl : c :: pyReplace cs (srcPat f0) (cidRef f0) =
                  pyReplace (c :: cs) (srcPat f0) (cidRef f0) := by
                rw [pyReplace_cons, hpb]
                simp
              rw [hrepl] at hpre
              exact absurd (match_head_preserved f0 g (c :: cs) (hbs g hg) hf0 hpre)
                (hgEx g hg)
            | false => rfl
          have hnone2 : (f0 :: fs).find?
              (fun g => (srcPat g).isPrefixOf (c :: cs)) = none := by
            rw [List.find?_eq_none]
            intro g hg
            simp only [Bool.not_eq_true]
            cases hip : (srcPat g).isPrefixOf (c :: cs) with
            | true =>
              have hpre := List.isPrefixOf_iff_prefix.mp hip
              rcases List.mem_cons.mp hg with rfl | hg
              · exact absurd hpre hf0
              · exact absurd hpre (hgEx g hg)
            | false => rfl
          rw [simulImages_cons, simulImages_cons]
          simp only [hnone1, hnone2]
          congr 1
          refine ih cs.length ?_ cs rfl
          simp only [List.length_cons] at hn
          omega

/-- For benign filenames the code's sequential image rewriting equals the
claim's simultaneous rewriting. -/
theorem rewriteImages_eq_simulImages (fs : List Str) (hbs : ∀ g ∈ fs, benignName g)
    (s : Str) : rewriteImages fs s = simulImages fs s := by
  induction fs generalizing s with
  | nil => exact (simul_nil_images s).symm
  | cons f0 fs ih =>
    have h1 : rewriteImages (f0 :: fs) s =
        rewriteImages fs (pyReplace s (srcPat f0) (cidRef f0)) := rfl
    rw [h1, ih (fun g hg => hbs g (by simp [hg])) _,
      replace_simul_step f0 fs (hbs f0 (by simp)) (fun g hg => hbs g (by simp [hg])) s]


/-- Claim C6 as amended: provided no known image filename contains a double
quote and none ends in `=` — every real directory entry accepted by
`get_images_to_embed` (a name ending in `.png`/`.jpg`/`.jpeg`/`.gif`)
satisfies both — the rewriting loop of `create_html_email` replaces exactly
the substrings `src="images/<filename>"` of known filenames by
`src="cid:<contentId>"` (contentId the filename with `.` mapped to `_`) and
leaves every other part of the HTML unchanged: its output coincides with
`simulImages`, the direct transcription of the claim's simultaneous
replacement, for every template and recipient. -/
theorem claim_C6 (images : List Str) (html : Str)
    (hb : ∀ g ∈ images, benignName g) :
    rewriteImages images html = simulImages images html :=
  rewriteImages_eq_simulImages images hb html

theorem claim_C6_witness :
    (∀ g ∈ [str "logo.png", str "foto.jpg"], benignName g) ∧
    rewriteImages [str "logo.png", str "foto.jpg"]
        (str "<img src=\"images/logo.png\"> y <img src=\"images/foto.jpg\"> fin") =
      simulImages [str "logo.png", str "foto.jpg"]
        (str "<img src=\"images/logo.png\"> y <img src=\"images/foto.jpg\"> fin") :=
  ⟨by decide,
    claim_C6 [str "logo.png", str "foto.jpg"]
      (str "<img src=\"images/logo.png\"> y <img src=\"images/foto.jpg\"> fin")
      (by decide)⟩

end Mailing
